import Mathlib

/-!
# roc-toolkit: delayed reader, format map and FEC block decoder

A shallow embedding of `roc_packet/delayed_reader.cpp` (the jitter buffer) and
of `roc_rtp/format_map.cpp` (the payload format registry) with the properties
of their operations, and a model of a coding scheme behind the interface
`roc_fec/iblock_decoder.h`.

Conventions of the embedding:

* `stream_timestamp_t` (an unsigned 32-bit integer) is a `Nat`, reduced
  `% 2 ^ 32` wherever the C++ arithmetic can wrap; `stream_timestamp_diff_t`
  (a signed 32-bit integer) is an `Int`.
* A `PacketPtr` is an `Option Packet`; the null pointer is `none`.
* An operation that may not return (a `roc_panic`, or a `for (;;)` loop that
  is still running when its iteration budget `fuel` is used up) returns an
  `Option`; `none` means that the call did not return.
* `roc_log` calls have no effect on the state and are left out.
-/

namespace roc

/-! ## Types declared outside `delayed_reader.cpp` -/

/-- Modelled from the spec: the status codes of `roc_status/status_code.h`, which
is not part of the sources at hand. `StatusOK` is success, `StatusDrain` is the
flow-control condition "no data currently available", every other code is a
failure. `NoStatus`, `StatusOK`, `StatusDrain` and `StatusNoMem` are the codes
the sources name; `StatusOther` stands for the remaining failure codes. -/
inductive StatusCode where
  | NoStatus
  | StatusOK
  | StatusDrain
  | StatusNoMem
  | StatusOther (tag : Nat)
  deriving DecidableEq, Repr

/-- Modelled from the spec: a packet, as far as the delayed reader looks at it: its
stream timestamp and its duration (both `stream_timestamp_t`), and `payload`,
which stands for everything else the packet carries and tells packets apart. -/
structure Packet where
  stream_timestamp : Nat
  duration : Nat
  payload : Nat
  deriving DecidableEq, Repr

/-- A `PacketPtr` is a nullable shared pointer to a packet. -/
abbrev PacketPtr := Option Packet

/-- Modelled from the spec: `stream_timestamp_diff(a, b)` of `roc_packet/units.h`,
the wraparound-safe signed distance between two 32-bit timestamps: the unsigned
difference `a - b` modulo `2 ^ 32`, reinterpreted as a signed 32-bit integer. -/
def stream_timestamp_diff (a b : Nat) : Int :=
  let d : Nat := (a % 2 ^ 32 + 2 ^ 32 - b % 2 ^ 32) % 2 ^ 32
  if d < 2 ^ 31 then (d : Int) else (d : Int) - 2 ^ 32

/-- Modelled from the spec: the internal packet queue `queue_`, whose class is
declared in a header that is not part of the sources at hand. It is a FIFO: the
front of `list_` is the oldest packet (`head()`), the back is the newest
(`tail()`). -/
structure Queue where
  list_ : List Packet
  deriving DecidableEq, Repr

/-- Number of packets in the queue. -/
def Queue.size (q : Queue) : Nat := q.list_.length

/-- Oldest packet of the queue, null if the queue is empty. -/
def Queue.head (q : Queue) : PacketPtr := q.list_.head?

/-- Newest packet of the queue, null if the queue is empty. -/
def Queue.tail (q : Queue) : PacketPtr := q.list_.getLast?

/-- Modelled from the spec: `queue_.write(pp)` appends the packet at the back and
returns `StatusOK`; writing a null pointer is a panic (`none`). -/
def Queue.write (q : Queue) (pp : PacketPtr) : Option (StatusCode × Queue) :=
  match pp with
  | none => none
  | some p => some (StatusCode.StatusOK, { list_ := q.list_ ++ [p] })

/-- Modelled from the spec: `queue_.read(pp)` removes the oldest packet, stores it
in `pp` and returns `StatusOK`; on an empty queue it returns the drain
condition and a null pointer. -/
def Queue.read (q : Queue) (_pp : PacketPtr) : StatusCode × PacketPtr × Queue :=
  match q.list_ with
  | [] => (StatusCode.StatusDrain, none, q)
  | p :: rest => (StatusCode.StatusOK, some p, { list_ := rest })

/-- The part of `audio::SampleSpec` the delayed reader uses outside of logging:
the conversion of a duration in nanoseconds to stream timestamp units. The
class is declared outside the sources at hand, so the conversion is a
parameter. -/
structure SampleSpec where
  ns_2_stream_timestamp : Int → Nat

/-- The upstream packet source `IReader& reader_`: an object with some state
`σ` and a virtual `read(PacketPtr&)`, which returns a status, the value it
leaves in the pointer, and its next state. -/
structure IReader (σ : Type) where
  read : σ → PacketPtr → StatusCode × PacketPtr × σ

/-! ## `DelayedReader` -/

/-- The members of `DelayedReader`; `reader_` is the current state of the
upstream reader. -/
structure DelayedReader (σ : Type) where
  reader_ : σ
  queue_ : Queue
  delay_ : Nat
  started_ : Bool
  sample_spec_ : SampleSpec
  init_status_ : StatusCode

/-- The constructor `DelayedReader::DelayedReader(reader, target_delay,
sample_spec)`. -/
def DelayedReader.new {σ : Type} (reader : σ) (target_delay : Int)
    (sample_spec : SampleSpec) : DelayedReader σ :=
  { reader_ := reader
    queue_ := { list_ := [] }
    delay_ := if target_delay > 0 then sample_spec.ns_2_stream_timestamp target_delay else 0
    started_ := false
    sample_spec_ := sample_spec
    init_status_ := StatusCode.StatusOK }

/-- `DelayedReader::queue_size_()`: the timestamp distance from the start of
the oldest queued packet to the end of the newest one, zero if it is negative
or the queue is empty. It reads no member but `queue_`, which is its argument
here. -/
def DelayedReader.queue_size_ (queue_ : Queue) : Nat :=
  if queue_.size = 0 then 0
  else
    match queue_.tail, queue_.head with
    | some t, some h =>
      let qs : Int :=
        stream_timestamp_diff ((t.stream_timestamp + t.duration) % 2 ^ 32) h.stream_timestamp
      if qs < 0 then 0 else qs.toNat
    | _, _ => 0

/-- The `for (;;)` loop of `DelayedReader::fetch_packets_()`, run for at most
`fuel` iterations; `pp` is the local packet pointer. The status of the result
is `none` when the loop was left by `break`, and `some code` when it was left
by `return code`. -/
def DelayedReader.fetch_packets_loop_ {σ : Type} (R : IReader σ) :
    Nat → DelayedReader σ → PacketPtr → Option (Option StatusCode × DelayedReader σ)
  | 0, _, _ => none
  | fuel + 1, s, pp =>
    match R.read s.reader_ pp with
    | (code, pp1, r1) =>
      let s1 : DelayedReader σ := { s with reader_ := r1 }
      if code ≠ StatusCode.StatusOK then
        if code = StatusCode.StatusDrain then some (none, s1)
        else some (some code, s1)
      else
        match s1.queue_.write pp1 with
        | none => none
        | some (code2, q2) =>
          let s2 : DelayedReader σ := { s1 with queue_ := q2 }
          if code2 ≠ StatusCode.StatusOK then some (some code2, s2)
          else DelayedReader.fetch_packets_loop_ R fuel s2 pp1

/-- `DelayedReader::fetch_packets_()`. -/
def DelayedReader.fetch_packets_ {σ : Type} (R : IReader σ) (fuel : Nat)
    (s : DelayedReader σ) : Option (StatusCode × DelayedReader σ) :=
  match DelayedReader.fetch_packets_loop_ R fuel s none with
  | none => none
  | some (some code, s1) => some (code, s1)
  | some (none, s1) =>
    let qs := DelayedReader.queue_size_ s1.queue_
    if qs < s1.delay_ then some (StatusCode.StatusDrain, s1)
    else some (StatusCode.StatusOK, s1)

/-- `DelayedReader::read_queued_packet_(pp)`, its loop run for at most `fuel`
iterations. The local `qs` only feeds the log message after the loop. -/
def DelayedReader.read_queued_packet_ {σ : Type} :
    Nat → DelayedReader σ → PacketPtr → Option (StatusCode × PacketPtr × DelayedReader σ)
  | 0, _, _ => none
  | fuel + 1, s, pp =>
    match s.queue_.read pp with
    | (code, pp1, q1) =>
      let s1 : DelayedReader σ := { s with queue_ := q1 }
      if code ≠ StatusCode.StatusOK then some (code, pp1, s1)
      else
        let new_qs := DelayedReader.queue_size_ s1.queue_
        if new_qs < s1.delay_ then some (StatusCode.StatusOK, pp1, s1)
        else DelayedReader.read_queued_packet_ fuel s1 pp1

/-- The last two statements of `DelayedReader::read`: deliver from the queue if
it is not empty, read from upstream otherwise. -/
def DelayedReader.read_started_ {σ : Type} (R : IReader σ) (fuel : Nat)
    (s : DelayedReader σ) (ptr : PacketPtr) :
    Option (StatusCode × PacketPtr × DelayedReader σ) :=
  if s.queue_.size ≠ 0 then DelayedReader.read_queued_packet_ fuel s ptr
  else
    match R.read s.reader_ ptr with
    | (code, ptr1, r1) => some (code, ptr1, { s with reader_ := r1 })

/-- `DelayedReader::read(ptr)`; `fuel` bounds the iterations of each loop it
runs. -/
def DelayedReader.read {σ : Type} (R : IReader σ) (fuel : Nat)
    (s : DelayedReader σ) (ptr : PacketPtr) :
    Option (StatusCode × PacketPtr × DelayedReader σ) :=
  if s.init_status_ ≠ StatusCode.StatusOK then none
  else if !s.started_ then
    match DelayedReader.fetch_packets_ R fuel s with
    | none => none
    | some (code, s1) =>
      if code ≠ StatusCode.StatusOK then some (code, ptr, s1)
      else DelayedReader.read_started_ R fuel { s1 with started_ := true } ptr
  else DelayedReader.read_started_ R fuel s ptr

/-! ## Vocabulary for the statements -/

/-- State of the upstream reader, and the value of the pointer handed to it,
after `n` consecutive reads that start in state `r` with pointer `pp`, each read
receiving the pointer as the previous one left it (as `fetch_packets_` does with
its local `pp`). -/
def IReader.after {σ : Type} (R : IReader σ) : Nat → σ → PacketPtr → σ × PacketPtr
  | 0, r, pp => (r, pp)
  | n + 1, r, pp => IReader.after R n (R.read r pp).2.2 (R.read r pp).2.1

/-- The upstream reader, in state `r` and handed the pointer `pp`, yields the
packets `ps`: its next `ps.length` reads return `StatusOK` and deliver the
packets of `ps`, in this order. -/
def IReader.yields {σ : Type} (R : IReader σ) : List Packet → σ → PacketPtr → Prop
  | [], _, _ => True
  | p :: ps, r, pp =>
    (R.read r pp).1 = StatusCode.StatusOK ∧ (R.read r pp).2.1 = some p ∧
      IReader.yields R ps (R.read r pp).2.2 (some p)

/-- Status of the read that follows `n` consecutive reads of the upstream
reader (see `IReader.after`). -/
def IReader.status_after {σ : Type} (R : IReader σ) (n : Nat) (r : σ) (pp : PacketPtr) :
    StatusCode :=
  (R.read (R.after n r pp).1 (R.after n r pp).2).1

/-- Results of consecutive reads of the upstream reader, one for each pointer
of `ptrs`, and its state after them. -/
def IReader.reads {σ : Type} (R : IReader σ) :
    List PacketPtr → σ → List (StatusCode × PacketPtr) × σ
  | [], r => ([], r)
  | ptr :: ptrs, r =>
    (((R.read r ptr).1, (R.read r ptr).2.1) :: (IReader.reads R ptrs (R.read r ptr).2.2).1,
      (IReader.reads R ptrs (R.read r ptr).2.2).2)

/-- The upstream reader `R` with a recorder attached: the second component of
its state lists, in order, the packets its reads have returned with
`StatusOK` so far, that is the packets accepted from upstream. -/
def IReader.logged {σ : Type} (R : IReader σ) : IReader (σ × List Packet) where
  read := fun st pp =>
    ((R.read st.1 pp).1, (R.read st.1 pp).2.1,
      ((R.read st.1 pp).2.2,
        if (R.read st.1 pp).1 = StatusCode.StatusOK then st.2 ++ (R.read st.1 pp).2.1.toList
        else st.2))

/-- Consecutive calls of `DelayedReader::read`, one for each pointer of `ptrs`:
the status and the pointer value of every call, and the final state. -/
def DelayedReader.read_many {σ : Type} (R : IReader σ) (fuel : Nat) :
    List PacketPtr → DelayedReader σ → Option (List (StatusCode × PacketPtr) × DelayedReader σ)
  | [], s => some ([], s)
  | ptr :: ptrs, s =>
    match DelayedReader.read R fuel s ptr with
    | none => none
    | some (code, ptr1, s1) =>
      match DelayedReader.read_many R fuel ptrs s1 with
      | none => none
      | some (outs, s2) => some ((code, ptr1) :: outs, s2)

/-- The packet a call hands to its caller: the pointer value if the status is
`StatusOK`, nothing otherwise. -/
def returned (code : StatusCode) (ptr : PacketPtr) : List Packet :=
  if code = StatusCode.StatusOK then ptr.toList else []

/-- The packets a sequence of calls hands to the caller, in order. -/
def released : List (StatusCode × PacketPtr) → List Packet
  | [] => []
  | out :: outs => returned out.1 out.2 ++ released outs

/-- Duration of the packet a call hands to its caller, zero if it hands none. -/
def returned_duration (code : StatusCode) (ptr : PacketPtr) : Nat :=
  ((returned code ptr).map Packet.duration).sum

/-- The delayed reader over the plain upstream reader that corresponds to a
delayed reader over the recording one: the record is dropped. -/
def DelayedReader.forget {σ : Type} (s : DelayedReader (σ × List Packet)) : DelayedReader σ :=
  { reader_ := s.reader_.1
    queue_ := s.queue_
    delay_ := s.delay_
    started_ := s.started_
    sample_spec_ := s.sample_spec_
    init_status_ := s.init_status_ }

/-! ## Concrete upstream readers and packets for the examples -/

/-- One scripted result of an upstream read. -/
inductive Step where
  | packet (p : Packet)
  | status (code : StatusCode)
  deriving DecidableEq, Repr

/-- A scripted upstream reader: its state is the list of the results of its
future reads. `Step.packet p` reads as `StatusOK` with packet `p`,
`Step.status code` as `code` with the pointer left alone; when the script is
used up every read returns the drain condition. -/
def script_reader : IReader (List Step) where
  read := fun st pp =>
    match st with
    | [] => (StatusCode.StatusDrain, pp, [])
    | Step.packet p :: rest => (StatusCode.StatusOK, some p, rest)
    | Step.status code :: rest => (code, pp, rest)

/-- Packet number `i` of a stream of packets of duration 10. -/
def pkt (i : Nat) : Packet :=
  { stream_timestamp := 10 * i, duration := 10, payload := i }

/-- A sample spec with 1000 timestamp units per second: one unit is one
millisecond, that is 1000000 nanoseconds. -/
def spec_1kHz : SampleSpec :=
  { ns_2_stream_timestamp := fun ns => (ns / 1000000).toNat }

/-! ## `FormatMap` (`roc_rtp/format_map.cpp`)

The mutex only serialises the calls and is left out: a call is one step on the
state. -/

/-- Modelled from the spec: the sample encodings of `audio::PcmEncoding`, declared
outside the sources at hand; only `PcmEncoding_SInt16` is named by them. -/
inductive audio.PcmEncoding where
  | PcmEncoding_SInt16
  | Other (code : Nat)
  deriving DecidableEq, Repr

/-- Modelled from the spec: the byte orders of `audio::PcmEndian`, declared outside
the sources at hand; only `PcmEndian_Big` is named by them. -/
inductive audio.PcmEndian where
  | PcmEndian_Big
  | Other (code : Nat)
  deriving DecidableEq, Repr

/-- Modelled from the spec: `audio::PcmFormat`, an encoding and a byte order. -/
structure audio.PcmFormat where
  encoding : audio.PcmEncoding
  endian : audio.PcmEndian
  deriving DecidableEq, Repr

/-- Modelled from the spec: the channel layouts of `audio::ChannelLayout`. -/
inductive audio.ChannelLayout where
  | ChannelLayout_Mono
  | ChannelLayout_Surround
  | Other (code : Nat)
  deriving DecidableEq, Repr

/-- Modelled from the spec: the channel masks, of which the sources name
`ChannelMask_Mono` and `ChannelMask_Stereo`. -/
inductive audio.ChannelMask where
  | ChannelMask_Mono
  | ChannelMask_Stereo
  | Other (bits : Nat)
  deriving DecidableEq, Repr

/-- Modelled from the spec: the data of an `audio::SampleSpec`, the "sample-rate /
channel-layout descriptor" of a format: what its constructor is given and
what `operator==` compares. (`roc.SampleSpec` above is the view of the same
class that the delayed reader needs.) -/
structure audio.SampleSpec where
  sample_rate : Nat
  channel_layout : audio.ChannelLayout
  channel_mask : audio.ChannelMask
  deriving DecidableEq, Repr

/-- Modelled from the spec: the packet flags, of which the sources name
`Packet::FlagAudio`. -/
inductive PacketFlag where
  | FlagAudio
  | Other (bit : Nat)
  deriving DecidableEq, Repr

/-- Modelled from the spec: the codec constructors a format points to;
`PcmEncoder_construct` and `PcmDecoder_construct` are
`audio::PcmEncoder::construct` and `audio::PcmDecoder::construct`. -/
inductive CodecConstructor where
  | PcmEncoder_construct
  | PcmDecoder_construct
  | Other (id : Nat)
  deriving DecidableEq, Repr

/-- The struct `rtp::Format`, declared in a header outside the sources at
hand, with the members `format_map.cpp` assigns. The two function pointers are
`none` when null. -/
structure Format where
  payload_type : Nat
  pcm_format : audio.PcmFormat
  sample_spec : audio.SampleSpec
  packet_flags : List PacketFlag
  new_encoder : Option CodecConstructor
  new_decoder : Option CodecConstructor
  deriving DecidableEq, Repr

/-- The payload type `PayloadType_L16_Stereo`; its declaration is outside the
sources at hand, the value is the static RTP payload type of 16-bit linear
stereo audio. -/
def PayloadType_L16_Stereo : Nat := 10

/-- The payload type `PayloadType_L16_Mono`; its declaration is outside the
sources at hand, the value is the static RTP payload type of 16-bit linear mono
audio. -/
def PayloadType_L16_Mono : Nat := 11

/-- Modelled from the spec: `node_map_`, a hash map of the nodes keyed by payload
type ("a small in-memory index"); its class is declared outside the sources at
hand. -/
structure Hashmap where
  nodes : List Format
  deriving DecidableEq, Repr

/-- The call `node_map_.find(pt)`: the node with key `pt`, null if there is none. -/
def Hashmap.find (m : Hashmap) (pt : Nat) : Option Format :=
  m.nodes.find? (fun node => decide (node.payload_type = pt))

/-- The call `node_map_.insert(node)`. -/
def Hashmap.insert (m : Hashmap) (node : Format) : Hashmap :=
  { nodes := node :: m.nodes }

/-- The members of `FormatMap`: the nodes indexed by payload type, and the same
nodes in the order of their registration (`node_list_`, front first). The
node pool is not part of the state: whether an allocation succeeds is an
argument of `add_format`. -/
structure FormatMap where
  node_map_ : Hashmap
  node_list_ : List Format
  deriving DecidableEq, Repr

/-- `FormatMap::find_by_pt(pt)`. -/
def FormatMap.find_by_pt (m : FormatMap) (pt : Nat) : Option Format :=
  match m.node_map_.find pt with
  | some node => some node
  | none => none

/-- The loop of `FormatMap::find_by_spec` over the nodes from `node` on. -/
def FormatMap.find_by_spec_loop_ (spec : audio.SampleSpec) : List Format → Option Format
  | [] => none
  | node :: rest =>
    if node.sample_spec = spec then some node
    else FormatMap.find_by_spec_loop_ spec rest

/-- `FormatMap::find_by_spec(spec)`. -/
def FormatMap.find_by_spec (m : FormatMap) (spec : audio.SampleSpec) : Option Format :=
  FormatMap.find_by_spec_loop_ spec m.node_list_

/-- `FormatMap::add_format(fmt)`. `is_valid` is `audio::SampleSpec::is_valid`,
which is defined outside the sources at hand; `node` tells whether the node
pool can allocate a node. The result is `none` when the call panics. -/
def FormatMap.add_format (is_valid : audio.SampleSpec → Bool) (m : FormatMap)
    (fmt : Format) (node : Bool) : Option (Bool × FormatMap) :=
  if fmt.payload_type = 0 then none
  else if !is_valid fmt.sample_spec then none
  else if fmt.new_encoder = none ∨ fmt.new_decoder = none then none
  else if (m.node_map_.find fmt.payload_type).isSome then some (false, m)
  else if !node then some (false, m)
  else
    some (true,
      { node_map_ := m.node_map_.insert fmt
        node_list_ := m.node_list_ ++ [fmt] })

/-- `FormatMap::add_builtin_(fmt)`. -/
def FormatMap.add_builtin_ (is_valid : audio.SampleSpec → Bool) (m : FormatMap)
    (fmt : Format) (node : Bool) : Option FormatMap :=
  match FormatMap.add_format is_valid m fmt node with
  | some (true, m1) => some m1
  | _ => none

/-- The first built-in format of the constructor, 16-bit linear mono. -/
def Format.L16_Mono : Format :=
  { payload_type := PayloadType_L16_Mono
    pcm_format :=
      { encoding := audio.PcmEncoding.PcmEncoding_SInt16, endian := audio.PcmEndian.PcmEndian_Big }
    sample_spec :=
      { sample_rate := 44100
        channel_layout := audio.ChannelLayout.ChannelLayout_Mono
        channel_mask := audio.ChannelMask.ChannelMask_Mono }
    packet_flags := [PacketFlag.FlagAudio]
    new_encoder := some CodecConstructor.PcmEncoder_construct
    new_decoder := some CodecConstructor.PcmDecoder_construct }

/-- The second built-in format of the constructor, 16-bit linear stereo. -/
def Format.L16_Stereo : Format :=
  { payload_type := PayloadType_L16_Stereo
    pcm_format :=
      { encoding := audio.PcmEncoding.PcmEncoding_SInt16, endian := audio.PcmEndian.PcmEndian_Big }
    sample_spec :=
      { sample_rate := 44100
        channel_layout := audio.ChannelLayout.ChannelLayout_Surround
        channel_mask := audio.ChannelMask.ChannelMask_Stereo }
    packet_flags := [PacketFlag.FlagAudio]
    new_encoder := some CodecConstructor.PcmEncoder_construct
    new_decoder := some CodecConstructor.PcmDecoder_construct }

/-- The constructor `FormatMap::FormatMap(allocator, poison)`; `node1` and
`node2` tell whether the node pool can allocate the nodes of the two built-in
formats. -/
def FormatMap.new (is_valid : audio.SampleSpec → Bool) (node1 node2 : Bool) :
    Option FormatMap :=
  match FormatMap.add_builtin_ is_valid { node_map_ := { nodes := [] }, node_list_ := [] }
      Format.L16_Mono node1 with
  | none => none
  | some m1 => FormatMap.add_builtin_ is_valid m1 Format.L16_Stereo node2

/-- Consecutive calls of `add_format`, one for each format of `calls` (paired
with the outcome of the allocation in that call): the results of the calls and
the final state. -/
def FormatMap.add_formats (is_valid : audio.SampleSpec → Bool) :
    List (Format × Bool) → FormatMap → Option (List Bool × FormatMap)
  | [], m => some ([], m)
  | call :: calls, m =>
    match FormatMap.add_format is_valid m call.1 call.2 with
    | none => none
    | some (r, m1) =>
      match FormatMap.add_formats is_valid calls m1 with
      | none => none
      | some (rs, m2) => some (r :: rs, m2)

/-- The formats of the calls that returned `true`, in call order. -/
def registered_formats : List (Format × Bool) → List Bool → List Format
  | call :: calls, r :: rs => (if r then [call.1] else []) ++ registered_formats calls rs
  | _, _ => []

/-- A validity check for the examples: a sample spec is valid if its rate is
not zero. -/
def rate_is_set (spec : audio.SampleSpec) : Bool :=
  decide (spec.sample_rate ≠ 0)

/-- A format for the examples: payload type `pt`, mono at `rate` Hz. -/
def example_format (pt rate : Nat) : Format :=
  { Format.L16_Mono with
    payload_type := pt
    sample_spec := { Format.L16_Mono.sample_spec with sample_rate := rate } }

/-! ## FEC block decoder (`roc_fec/iblock_decoder.h`)

The sources at hand declare the interface only. What follows models one
concrete coding scheme behind it, as the specification describes it. -/

/-- Modelled from the spec: a `core::Slice` of symbol data, `none` when the slice
is empty/absent. The elements are elements of the field `F` of the code (for
a code over the field with 256 elements, a field element is a byte). -/
abbrev Slice (F : Type) := Option (List F)

/-- Modelled from the spec: the invalid-argument condition that `begin_block`
reports when the block shape violates the limits of the scheme. -/
def StatusBadArg : StatusCode := StatusCode.StatusOther 0

/-- Modelled from the spec: the concrete coding scheme behind `IBlockDecoder`, which
is not part of the sources at hand: "a linear erasure code over a Galois field
or equivalent", of the Vandermonde kind. Symbol slot `i` of a block (source
slots first, then repair slots) has the evaluation point `point i`, and
`max_block_length` is the number of slots the scheme can handle in one
block. -/
structure CodingScheme (F : Type) where
  max_block_length : Nat
  point : Nat → F

/-- Modelled from the spec: the linear solve at the heart of the scheme
("Vandermonde/Cauchy matrix inversion or equivalent"). Given the values `val i`
in the slots `i` of `nodes`, the value at `z` of the polynomial of degree less
than `nodes.length` that takes the value `val i` at `point i`, in Lagrange
form. -/
def CodingScheme.solve {F : Type} [Field F] (S : CodingScheme F) (nodes : List Nat)
    (val : Nat → F) (z : F) : F :=
  (nodes.map (fun i =>
    val i * ((nodes.filter (fun j => decide (j ≠ i))).map
      (fun j => (S.point i - S.point j)⁻¹ * (z - S.point j))).prod)).sum

/-- Modelled from the spec: the reference encoder. From the `sblen` source symbols
of a block, each of `payload_size` elements, it produces the `rblen` repair
symbols: element `b` of repair symbol `j` is the value at the point of slot
`sblen + j` of the polynomial through the elements `b` of the source
symbols. -/
def CodingScheme.encode {F : Type} [Field F] (S : CodingScheme F)
    (sblen rblen payload_size : Nat) (source : List (List F)) : List (List F) :=
  (List.range rblen).map (fun j =>
    (List.range payload_size).map (fun b =>
      S.solve (List.range sblen) (fun i => (source.getD i []).getD b 0) (S.point (sblen + j))))

/-- Modelled from the spec: the state of a block decoder: whether a block is open
(between `begin_block` and `end_block`), the shape of the block, and the buffer
registered for each symbol slot. -/
structure BlockDecoder (F : Type) where
  block_open : Bool
  sblen : Nat
  rblen : Nat
  payload_size : Nat
  buffers : List (Slice F)

/-- Modelled from the spec: `begin_block(sblen, rblen, payload_size)`. It fails with
the invalid-argument condition if the block is longer than the scheme allows
and with `StatusNoMem` if the allocation fails (`alloc_ok = false`); calling
it while a block is open is a contract violation (`none`). -/
def BlockDecoder.begin_block {F : Type} (S : CodingScheme F) (d : BlockDecoder F)
    (sblen rblen payload_size : Nat) (alloc_ok : Bool) :
    Option (StatusCode × BlockDecoder F) :=
  if d.block_open then none
  else if S.max_block_length < sblen + rblen then some (StatusBadArg, d)
  else if !alloc_ok then some (StatusCode.StatusNoMem, d)
  else
    some (StatusCode.StatusOK,
      { block_open := true
        sblen := sblen
        rblen := rblen
        payload_size := payload_size
        buffers := List.replicate (sblen + rblen) none })

/-- Modelled from the spec: `set_buffer(index, buffer)` registers the buffer of
symbol slot `index`; an empty/absent slice marks the symbol as missing. Calling
it outside the begin/end window, or for a slot outside the block, is a
contract violation (`none`). -/
def BlockDecoder.set_buffer {F : Type} (d : BlockDecoder F) (index : Nat)
    (buffer : Slice F) : Option (BlockDecoder F) :=
  if !d.block_open then none
  else if d.sblen + d.rblen ≤ index then none
  else some { d with buffers := d.buffers.set index buffer }

/-- Modelled from the spec: `repair_buffer(index)`. A slot that was supplied is
returned unchanged. A missing slot is reconstructed if at least `sblen`
symbols of the block were supplied, from the first `sblen` of them; otherwise
the result is the empty/absent slice. Calling it outside the begin/end window,
or for a slot outside the block, is a contract violation (`none`). -/
def BlockDecoder.repair_buffer {F : Type} [Field F] (S : CodingScheme F)
    (d : BlockDecoder F) (index : Nat) : Option (Slice F) :=
  if !d.block_open then none
  else if d.sblen + d.rblen ≤ index then none
  else
    match d.buffers.getD index none with
    | some buffer => some (some buffer)
    | none =>
      let available :=
        (List.range (d.sblen + d.rblen)).filter (fun t => (d.buffers.getD t none).isSome)
      if d.sblen ≤ available.length then
        some (some ((List.range d.payload_size).map (fun b =>
          S.solve (available.take d.sblen)
            (fun t => ((d.buffers.getD t none).getD []).getD b 0) (S.point index))))
      else some none

/-- Modelled from the spec: `end_block()` closes the block and lets go of the
registered buffers. -/
def BlockDecoder.end_block {F : Type} (d : BlockDecoder F) : Option (BlockDecoder F) :=
  if !d.block_open then none
  else some { d with block_open := false, buffers := [] }

/-- Consecutive `set_buffer` calls, one for each pair of a slot and a buffer. -/
def BlockDecoder.set_buffers {F : Type} :
    List (Nat × Slice F) → BlockDecoder F → Option (BlockDecoder F)
  | [], d => some d
  | call :: calls, d =>
    match d.set_buffer call.1 call.2 with
    | none => none
    | some d1 => BlockDecoder.set_buffers calls d1

/-- All symbols of an encoded block: the source symbols, then the repair
symbols of the reference encoder. -/
def CodingScheme.block_symbols {F : Type} [Field F] (S : CodingScheme F)
    (sblen rblen payload_size : Nat) (source : List (List F)) : List (List F) :=
  source ++ S.encode sblen rblen payload_size source

/-- A coding scheme for the examples: the code over the rational numbers whose
slot `i` has the point `i`, with room for 255 slots. -/
def rational_scheme : CodingScheme ℚ :=
  { max_block_length := 255, point := fun i => (i : ℚ) }

/-! ## Theorems -/

open StatusCode

section Fetch

variable {σ : Type}

lemma fetch_packets_loop_yields (R : IReader σ) :
    ∀ (ps : List Packet) (s : DelayedReader σ) (pp : PacketPtr) (fuel : Nat),
      R.yields ps s.reader_ pp →
      R.status_after ps.length s.reader_ pp ≠ StatusOK →
      ps.length < fuel →
      DelayedReader.fetch_packets_loop_ R fuel s pp =
        some (if R.status_after ps.length s.reader_ pp = StatusDrain then none
              else some (R.status_after ps.length s.reader_ pp),
          { s with
            reader_ := (R.after (ps.length + 1) s.reader_ pp).1
            queue_ := { list_ := s.queue_.list_ ++ ps } }) := by
  intro ps
  induction ps with
  | nil =>
    intro s pp fuel _ hne hfuel
    obtain ⟨f, rfl⟩ : ∃ f, fuel = f + 1 := ⟨fuel - 1, by simp at hfuel; omega⟩
    rcases hr : R.read s.reader_ pp with ⟨code, pp1, r1⟩
    simp only [IReader.status_after, IReader.after, hr] at hne
    simp only [DelayedReader.fetch_packets_loop_, IReader.status_after, IReader.after, hr,
      List.length_nil, List.append_nil]
    simp [hne]
    split <;> rfl
  | cons p ps ih =>
    intro s pp fuel hy hne hfuel
    obtain ⟨f, rfl⟩ : ∃ f, fuel = f + 1 := ⟨fuel - 1, by simp at hfuel; omega⟩
    rcases hr : R.read s.reader_ pp with ⟨code, pp1, r1⟩
    simp only [IReader.yields, hr] at hy
    obtain ⟨hc, hp, hy⟩ := hy
    subst hc hp
    simp only [IReader.status_after, IReader.after, List.length_cons, hr] at hne ⊢
    have h := ih { s with reader_ := r1, queue_ := { list_ := s.queue_.list_ ++ [p] } } (some p) f
      hy hne (by simpa using hfuel)
    simp only [DelayedReader.fetch_packets_loop_, hr, Queue.write]
    simp only [IReader.status_after] at h
    simp [h]
    rfl

end Fetch

section FillingState

variable {σ : Type}

lemma fetch_packets_yields (R : IReader σ) (ps : List Packet) (s : DelayedReader σ) (fuel : Nat)
    (hy : R.yields ps s.reader_ none)
    (hne : R.status_after ps.length s.reader_ none ≠ StatusOK)
    (hfuel : ps.length < fuel) :
    DelayedReader.fetch_packets_ R fuel s =
      some (if R.status_after ps.length s.reader_ none = StatusDrain then
              (if DelayedReader.queue_size_ { list_ := s.queue_.list_ ++ ps } < s.delay_
                then StatusDrain else StatusOK)
            else R.status_after ps.length s.reader_ none,
        { s with
          reader_ := (R.after (ps.length + 1) s.reader_ none).1
          queue_ := { list_ := s.queue_.list_ ++ ps } }) := by
  unfold DelayedReader.fetch_packets_
  rw [fetch_packets_loop_yields R ps s none fuel hy hne hfuel]
  by_cases hd : R.status_after ps.length s.reader_ none = StatusDrain
  · simp only [hd, if_true]
    split <;> rfl
  · simp only [hd, if_false]

/-- C1 (fill threshold). In the Filling state (`started_ = false`), if the
upstream yields the packets `ps` and then the drain status, and the queued
duration of the FIFO extended by `ps` is less than `delay_`, then `read`
returns the drain status, leaves the caller's pointer as it was, leaves
`started_` false and keeps every pulled packet at the back of the FIFO. -/
theorem fill_threshold (R : IReader σ) (s : DelayedReader σ) (ps : List Packet)
    (ptr : PacketPtr) (fuel : Nat)
    (hinit : s.init_status_ = StatusOK)
    (hstarted : s.started_ = false)
    (hyields : R.yields ps s.reader_ none)
    (hdrain : R.status_after ps.length s.reader_ none = StatusDrain)
    (hbelow : DelayedReader.queue_size_ { list_ := s.queue_.list_ ++ ps } < s.delay_)
    (hfuel : ps.length < fuel) :
    DelayedReader.read R fuel s ptr =
      some (StatusDrain, ptr,
        { s with
          reader_ := (R.after (ps.length + 1) s.reader_ none).1
          queue_ := { list_ := s.queue_.list_ ++ ps } }) := by
  unfold DelayedReader.read
  rw [fetch_packets_yields R ps s fuel hyields (by rw [hdrain]; decide) hfuel]
  simp [hinit, hstarted, hdrain, hbelow]

/-- A concrete instance: two packets of 10 units against a delay of
40 units. -/
theorem fill_threshold_witness :
    DelayedReader.read script_reader 3
        (DelayedReader.new [Step.packet (pkt 0), Step.packet (pkt 1)] 40000000 spec_1kHz) none =
      some (StatusDrain, none,
        { DelayedReader.new [Step.packet (pkt 0), Step.packet (pkt 1)] 40000000 spec_1kHz with
          reader_ := []
          queue_ := { list_ := [pkt 0, pkt 1] } }) :=
  fill_threshold script_reader
    (DelayedReader.new [Step.packet (pkt 0), Step.packet (pkt 1)] 40000000 spec_1kHz)
    [pkt 0, pkt 1] none 3 rfl rfl (by simp [IReader.yields, script_reader, DelayedReader.new])
    (by decide) (by decide) (by decide)

end FillingState

section DrainingState

variable {σ : Type}

lemma queue_size_nil : DelayedReader.queue_size_ { list_ := [] } = 0 := rfl

lemma read_queued_packet_trim :
    ∀ (q : List Packet) (s : DelayedReader σ) (pp : PacketPtr) (fuel : Nat),
      s.queue_.list_ = q → q ≠ [] → 0 < s.delay_ → q.length ≤ fuel →
      ∃ k p, q[k]? = some p ∧
        DelayedReader.read_queued_packet_ fuel s pp =
          some (StatusOK, some p, { s with queue_ := { list_ := q.drop (k + 1) } }) ∧
        DelayedReader.queue_size_ { list_ := q.drop (k + 1) } < s.delay_ ∧
        ∀ j, j < k → ¬ DelayedReader.queue_size_ { list_ := q.drop (j + 1) } < s.delay_ := by
  intro q
  induction q with
  | nil => intro s pp fuel _ hne; exact absurd rfl hne
  | cons p rest ih =>
    intro s pp fuel hq _ hdelay hfuel
    obtain ⟨f, rfl⟩ : ∃ f, fuel = f + 1 := ⟨fuel - 1, by simp at hfuel; omega⟩
    by_cases hlt : DelayedReader.queue_size_ { list_ := rest } < s.delay_
    · refine ⟨0, p, by simp, ?_, by simpa using hlt, by intro j hj; omega⟩
      simp [DelayedReader.read_queued_packet_, Queue.read, hq, hlt]
    · have hrest : rest ≠ [] := by
        rintro rfl
        exact hlt (by rw [queue_size_nil]; exact hdelay)
      obtain ⟨k, p', hk, hread, hsize, hleast⟩ :=
        ih { s with queue_ := { list_ := rest } } (some p) f rfl hrest hdelay
          (by simpa using hfuel)
      refine ⟨k + 1, p', by simpa using hk, ?_, by simpa using hsize, ?_⟩
      · simp [DelayedReader.read_queued_packet_, Queue.read, hq, hlt]
        simpa using hread
      · intro j hj
        cases j with
        | zero => simpa using hlt
        | succ j => simpa using hleast j (by omega)

/-- C2 (trimming rule). In the Draining state with `delay_ > 0` and a non-empty
FIFO `[p0, ..., p(n-1)]`, `read` returns `StatusOK` with the packet `p_k`, where
`k` is the least index such that the queued duration of `[p(k+1), ..., p(n-1)]`
is less than `delay_`; the FIFO afterwards is exactly that suffix, so the
packets before `p_k` are discarded. -/
theorem trimming_rule (R : IReader σ) (s : DelayedReader σ) (ptr : PacketPtr) (fuel : Nat)
    (hinit : s.init_status_ = StatusOK)
    (hstarted : s.started_ = true)
    (hdelay : 0 < s.delay_)
    (hnonempty : s.queue_.list_ ≠ [])
    (hfuel : s.queue_.size ≤ fuel) :
    ∃ k p, s.queue_.list_[k]? = some p ∧
      DelayedReader.read R fuel s ptr =
        some (StatusOK, some p, { s with queue_ := { list_ := s.queue_.list_.drop (k + 1) } }) ∧
      DelayedReader.queue_size_ { list_ := s.queue_.list_.drop (k + 1) } < s.delay_ ∧
      ∀ j, j < k → ¬ DelayedReader.queue_size_ { list_ := s.queue_.list_.drop (j + 1) } < s.delay_ := by
  obtain ⟨k, p, hk, hread, hrest⟩ :=
    read_queued_packet_trim s.queue_.list_ s ptr fuel rfl hnonempty hdelay hfuel
  refine ⟨k, p, hk, ?_, hrest⟩
  have hsize : s.queue_.size ≠ 0 := by
    simpa [Queue.size] using hnonempty
  simp [DelayedReader.read, DelayedReader.read_started_, hinit, hstarted, hsize, hread]

/-- A concrete instance: a delay of 20 units and four queued packets of
10 units each. -/
theorem trimming_rule_witness :
    ∃ k p, [pkt 0, pkt 1, pkt 2, pkt 3][k]? = some p ∧
      DelayedReader.read script_reader 4
          { reader_ := [], queue_ := { list_ := [pkt 0, pkt 1, pkt 2, pkt 3] }, delay_ := 20,
            started_ := true, sample_spec_ := spec_1kHz, init_status_ := StatusOK } none =
        some (StatusOK, some p,
          { reader_ := [], queue_ := { list_ := [pkt 0, pkt 1, pkt 2, pkt 3].drop (k + 1) },
            delay_ := 20, started_ := true, sample_spec_ := spec_1kHz,
            init_status_ := StatusOK }) ∧
      DelayedReader.queue_size_ { list_ := [pkt 0, pkt 1, pkt 2, pkt 3].drop (k + 1) } < 20 ∧
      ∀ j, j < k →
        ¬ DelayedReader.queue_size_ { list_ := [pkt 0, pkt 1, pkt 2, pkt 3].drop (j + 1) } < 20 :=
  trimming_rule script_reader
    { reader_ := [], queue_ := { list_ := [pkt 0, pkt 1, pkt 2, pkt 3] }, delay_ := 20,
      started_ := true, sample_spec_ := spec_1kHz, init_status_ := StatusOK } none 4
    rfl rfl (by decide) (by decide) (by decide)

end DrainingState

section Frame

variable {σ : Type}

lemma read_queued_packet_post :
    ∀ (fuel : Nat) (s : DelayedReader σ) (pp : PacketPtr) (code : StatusCode)
      (pp' : PacketPtr) (s' : DelayedReader σ),
      DelayedReader.read_queued_packet_ fuel s pp = some (code, pp', s') →
      s'.reader_ = s.reader_ ∧ s'.delay_ = s.delay_ ∧ s'.started_ = s.started_ ∧
      s'.init_status_ = s.init_status_ ∧
      (DelayedReader.queue_size_ s'.queue_ < s'.delay_ ∨ s'.queue_.list_ = []) ∧
      ∃ dropped, s.queue_.list_ = dropped ++ returned code pp' ++ s'.queue_.list_ := by
  intro fuel
  induction fuel with
  | zero => intro s pp code pp' s' h; simp [DelayedReader.read_queued_packet_] at h
  | succ f ih =>
    intro s pp code pp' s' h
    rcases hq : s.queue_.list_ with _ | ⟨p, rest⟩
    · simp [DelayedReader.read_queued_packet_, Queue.read, hq] at h
      obtain ⟨rfl, rfl, rfl⟩ := h
      simp [hq, returned]
    · by_cases hlt : DelayedReader.queue_size_ { list_ := rest } < s.delay_
      · simp [DelayedReader.read_queued_packet_, Queue.read, hq, hlt] at h
        obtain ⟨rfl, rfl, rfl⟩ := h
        refine ⟨rfl, rfl, rfl, rfl, Or.inl hlt, [], ?_⟩
        simp [returned]
      · simp [DelayedReader.read_queued_packet_, Queue.read, hq, hlt] at h
        obtain ⟨h1, h2, h3, h4, h5, dropped, h6⟩ := ih _ _ _ _ _ h
        refine ⟨h1, h2, h3, h4, h5, p :: dropped, ?_⟩
        simp only [] at h6
        simp [h6]

lemma fetch_packets_loop_post (R : IReader σ) :
    ∀ (fuel : Nat) (s : DelayedReader σ) (pp : PacketPtr) (st : Option StatusCode)
      (s' : DelayedReader σ),
      DelayedReader.fetch_packets_loop_ R fuel s pp = some (st, s') →
      s'.delay_ = s.delay_ ∧ s'.started_ = s.started_ ∧ s'.init_status_ = s.init_status_ ∧
      st ≠ some StatusOK ∧
      ∃ ps, s'.queue_.list_ = s.queue_.list_ ++ ps := by
  intro fuel
  induction fuel with
  | zero => intro s pp st s' h; simp [DelayedReader.fetch_packets_loop_] at h
  | succ f ih =>
    intro s pp st s' h
    rcases hr : R.read s.reader_ pp with ⟨code, pp1, r1⟩
    simp only [DelayedReader.fetch_packets_loop_, hr] at h
    by_cases hc : code = StatusOK
    · subst hc
      cases pp1 with
      | none => simp [Queue.write] at h
      | some p =>
        simp [Queue.write] at h
        obtain ⟨h1, h2, h3, h4, ps, h5⟩ := ih _ _ _ _ h
        refine ⟨h1, h2, h3, h4, p :: ps, ?_⟩
        simp only [] at h5
        simp [h5]
    · by_cases hd : code = StatusDrain
      · simp [hc, hd] at h
        obtain ⟨rfl, rfl⟩ := h
        exact ⟨rfl, rfl, rfl, by simp, [], by simp⟩
      · simp [hc, hd] at h
        obtain ⟨rfl, rfl⟩ := h
        exact ⟨rfl, rfl, rfl, by simpa using hc, [], by simp⟩

lemma fetch_packets_post (R : IReader σ) (fuel : Nat) (s : DelayedReader σ)
    (code : StatusCode) (s' : DelayedReader σ)
    (h : DelayedReader.fetch_packets_ R fuel s = some (code, s')) :
    s'.delay_ = s.delay_ ∧ s'.started_ = s.started_ ∧ s'.init_status_ = s.init_status_ ∧
    ∃ ps, s'.queue_.list_ = s.queue_.list_ ++ ps := by
  unfold DelayedReader.fetch_packets_ at h
  rcases hl : DelayedReader.fetch_packets_loop_ R fuel s none with _ | ⟨st, s1⟩
  · simp [hl] at h
  · obtain ⟨h1, h2, h3, _, h5⟩ := fetch_packets_loop_post R fuel s none st s1 hl
    cases st with
    | none =>
      simp only [hl] at h
      split at h <;> (simp at h; obtain ⟨_, rfl⟩ := h; exact ⟨h1, h2, h3, h5⟩)
    | some c =>
      simp [hl] at h
      obtain ⟨_, rfl⟩ := h
      exact ⟨h1, h2, h3, h5⟩

lemma read_started_post (R : IReader σ) (fuel : Nat) (s : DelayedReader σ) (ptr : PacketPtr)
    (code : StatusCode) (ptr' : PacketPtr) (s' : DelayedReader σ)
    (h : DelayedReader.read_started_ R fuel s ptr = some (code, ptr', s')) :
    s'.delay_ = s.delay_ ∧ s'.started_ = s.started_ ∧ s'.init_status_ = s.init_status_ ∧
    (DelayedReader.queue_size_ s'.queue_ < s'.delay_ ∨ s'.queue_.list_ = []) ∧
    ∃ dropped, s.queue_.list_ = dropped ++ s'.queue_.list_ := by
  unfold DelayedReader.read_started_ at h
  by_cases hsize : s.queue_.size = 0
  · simp [hsize] at h
    obtain ⟨_, _, rfl⟩ := h
    have : s.queue_.list_ = [] := by simpa [Queue.size] using hsize
    exact ⟨rfl, rfl, rfl, Or.inr this, [], by simp⟩
  · simp [hsize] at h
    obtain ⟨_, h2, h3, h4, h5, dropped, h6⟩ := read_queued_packet_post fuel s ptr code ptr' s' h
    exact ⟨h2, h3, h4, h5, dropped ++ returned code ptr', by simp [h6]⟩

end Frame

section TrimBound

variable {σ : Type}

/-- C3 (trim bound). Whenever a `read` call returns with `started_ = true`, the
queued duration of the FIFO right after the call is at most `delay_` plus the
duration of the packet the call returned (zero if it returned none). -/
theorem trim_bound (R : IReader σ) (fuel : Nat) (s : DelayedReader σ) (ptr : PacketPtr)
    (code : StatusCode) (ptr' : PacketPtr) (s' : DelayedReader σ)
    (hread : DelayedReader.read R fuel s ptr = some (code, ptr', s'))
    (hstarted : s'.started_ = true) :
    DelayedReader.queue_size_ s'.queue_ ≤ s.delay_ + returned_duration code ptr' := by
  have key : s'.delay_ = s.delay_ ∧
      (DelayedReader.queue_size_ s'.queue_ < s'.delay_ ∨ s'.queue_.list_ = []) := by
    unfold DelayedReader.read at hread
    by_cases hinit : s.init_status_ = StatusOK
    · by_cases hs : s.started_ = true
      · simp [hinit, hs] at hread
        obtain ⟨h1, _, _, h4, _⟩ := read_started_post R fuel s ptr code ptr' s' hread
        exact ⟨h1, h4⟩
      · simp [hinit, hs] at hread
        rcases hf : DelayedReader.fetch_packets_ R fuel s with _ | ⟨c1, s1⟩
        · simp [hf] at hread
        · obtain ⟨g1, g2, _, _⟩ := fetch_packets_post R fuel s c1 s1 hf
          by_cases hc : c1 = StatusOK
          · simp [hf, hc] at hread
            obtain ⟨h1, _, _, h4, _⟩ := read_started_post R fuel _ ptr code ptr' s' hread
            exact ⟨h1.trans g1, h4⟩
          · simp [hf, hc] at hread
            obtain ⟨_, _, rfl⟩ := hread
            rw [g2] at hstarted
            exact absurd hstarted hs
    · simp [hinit] at hread
  obtain ⟨hd, hq⟩ := key
  rcases hq with hq | hq
  · omega
  · have : s'.queue_ = { list_ := [] } := by
      cases hsq : s'.queue_
      simp [hsq] at hq
      simp [hq]
    rw [this, queue_size_nil]
    omega

/-- A concrete instance: the read that starts the reader on four queued
packets of 10 units against a delay of 40 units. -/
theorem trim_bound_witness :
    DelayedReader.queue_size_ { list_ := [pkt 1, pkt 2, pkt 3] } ≤
      40 + returned_duration StatusOK (some (pkt 0)) :=
  trim_bound script_reader 2
    { reader_ := [Step.packet (pkt 3)], queue_ := { list_ := [pkt 0, pkt 1, pkt 2] },
      delay_ := 40, started_ := false, sample_spec_ := spec_1kHz, init_status_ := StatusOK }
    none StatusOK (some (pkt 0))
    { reader_ := [], queue_ := { list_ := [pkt 1, pkt 2, pkt 3] },
      delay_ := 40, started_ := true, sample_spec_ := spec_1kHz, init_status_ := StatusOK }
    rfl rfl

end TrimBound

section Order

variable {σ : Type}

lemma fetch_packets_loop_logged (R : IReader σ) :
    ∀ (fuel : Nat) (s : DelayedReader (σ × List Packet)) (pp : PacketPtr)
      (st : Option StatusCode) (s' : DelayedReader (σ × List Packet)),
      DelayedReader.fetch_packets_loop_ R.logged fuel s pp = some (st, s') →
      ∃ ps, s'.queue_.list_ = s.queue_.list_ ++ ps ∧ s'.reader_.2 = s.reader_.2 ++ ps := by
  intro fuel
  induction fuel with
  | zero => intro s pp st s' h; simp [DelayedReader.fetch_packets_loop_] at h
  | succ f ih =>
    intro s pp st s' h
    rcases hr : R.read s.reader_.1 pp with ⟨code, pp1, r1⟩
    simp only [DelayedReader.fetch_packets_loop_, IReader.logged, hr] at h
    by_cases hc : code = StatusOK
    · subst hc
      cases pp1 with
      | none => simp [Queue.write] at h
      | some p =>
        simp [Queue.write] at h
        obtain ⟨ps, h1, h2⟩ := ih _ _ _ _ h
        refine ⟨p :: ps, ?_, ?_⟩
        · simp only [] at h1
          simp [h1]
        · simp only [] at h2
          simp [h2]
    · by_cases hd : code = StatusDrain
      · simp [hc, hd] at h
        obtain ⟨_, rfl⟩ := h
        exact ⟨[], by simp, by simp [hc]⟩
      · simp [hc, hd] at h
        obtain ⟨_, rfl⟩ := h
        exact ⟨[], by simp, by simp [hc]⟩

lemma fetch_packets_logged (R : IReader σ) (fuel : Nat) (s : DelayedReader (σ × List Packet))
    (code : StatusCode) (s' : DelayedReader (σ × List Packet))
    (h : DelayedReader.fetch_packets_ R.logged fuel s = some (code, s')) :
    ∃ ps, s'.queue_.list_ = s.queue_.list_ ++ ps ∧ s'.reader_.2 = s.reader_.2 ++ ps := by
  unfold DelayedReader.fetch_packets_ at h
  rcases hl : DelayedReader.fetch_packets_loop_ R.logged fuel s none with _ | ⟨st, s1⟩
  · simp [hl] at h
  · have h5 := fetch_packets_loop_logged R fuel s none st s1 hl
    cases st with
    | none =>
      simp only [hl] at h
      split at h <;> (simp at h; obtain ⟨_, rfl⟩ := h; exact h5)
    | some c =>
      simp [hl] at h
      obtain ⟨_, rfl⟩ := h
      exact h5

lemma read_started_logged (R : IReader σ) (fuel : Nat) (s : DelayedReader (σ × List Packet))
    (ptr : PacketPtr) (code : StatusCode) (ptr' : PacketPtr)
    (s' : DelayedReader (σ × List Packet)) (c : List Packet)
    (hlog : s.reader_.2 = c ++ s.queue_.list_)
    (h : DelayedReader.read_started_ R.logged fuel s ptr = some (code, ptr', s')) :
    ∃ d, s'.reader_.2 = c ++ d ++ returned code ptr' ++ s'.queue_.list_ := by
  unfold DelayedReader.read_started_ at h
  by_cases hsize : s.queue_.size = 0
  · have hq : s.queue_.list_ = [] := by simpa [Queue.size] using hsize
    simp [hsize, IReader.logged] at h
    obtain ⟨rfl, rfl, rfl⟩ := h
    refine ⟨[], ?_⟩
    simp only [hlog, hq, returned, List.append_nil]
    split <;> simp
  · simp [hsize] at h
    obtain ⟨h1, _, _, _, _, dropped, h6⟩ := read_queued_packet_post fuel s ptr code ptr' s' h
    exact ⟨dropped, by rw [h1, hlog, h6]; simp⟩

lemma read_logged (R : IReader σ) (fuel : Nat) (s : DelayedReader (σ × List Packet))
    (ptr : PacketPtr) (code : StatusCode) (ptr' : PacketPtr)
    (s' : DelayedReader (σ × List Packet)) (c : List Packet)
    (hlog : s.reader_.2 = c ++ s.queue_.list_)
    (h : DelayedReader.read R.logged fuel s ptr = some (code, ptr', s')) :
    ∃ d, s'.reader_.2 = c ++ d ++ returned code ptr' ++ s'.queue_.list_ := by
  unfold DelayedReader.read at h
  by_cases hinit : s.init_status_ = StatusOK
  · by_cases hs : s.started_ = true
    · simp [hinit, hs] at h
      exact read_started_logged R fuel s ptr code ptr' s' c hlog h
    · simp [hinit, hs] at h
      rcases hf : DelayedReader.fetch_packets_ R.logged fuel s with _ | ⟨c1, s1⟩
      · simp [hf] at h
      · obtain ⟨ps, g1, g2⟩ := fetch_packets_logged R fuel s c1 s1 hf
        have hlog1 : s1.reader_.2 = c ++ s1.queue_.list_ := by rw [g2, g1, hlog]; simp
        by_cases hc : c1 = StatusOK
        · simp [hf, hc] at h
          exact read_started_logged R fuel { s1 with started_ := true } ptr code ptr' s' c hlog1 h
        · simp [hf, hc] at h
          obtain ⟨rfl, rfl, rfl⟩ := h
          exact ⟨[], by simp [hlog1, returned, hc]⟩
  · simp [hinit] at h

lemma read_many_logged (R : IReader σ) (fuel : Nat) :
    ∀ (ptrs : List PacketPtr) (s : DelayedReader (σ × List Packet))
      (outs : List (StatusCode × PacketPtr)) (s' : DelayedReader (σ × List Packet))
      (c : List Packet),
      s.reader_.2 = c ++ s.queue_.list_ →
      DelayedReader.read_many R.logged fuel ptrs s = some (outs, s') →
      ∃ d, s'.reader_.2 = c ++ d ++ s'.queue_.list_ ∧ (released outs).Sublist d := by
  intro ptrs
  induction ptrs with
  | nil =>
    intro s outs s' c hlog h
    simp [DelayedReader.read_many] at h
    obtain ⟨rfl, rfl⟩ := h
    exact ⟨[], by simpa using hlog, by simp [released]⟩
  | cons ptr ptrs ih =>
    intro s outs s' c hlog h
    simp only [DelayedReader.read_many] at h
    rcases h1 : DelayedReader.read R.logged fuel s ptr with _ | ⟨code, ptr1, s1⟩
    · simp [h1] at h
    · simp only [h1] at h
      rcases h2 : DelayedReader.read_many R.logged fuel ptrs s1 with _ | ⟨outs1, s2⟩
      · simp [h2] at h
      · simp [h2] at h
        obtain ⟨rfl, rfl⟩ := h
        obtain ⟨d, hd⟩ := read_logged R fuel s ptr code ptr1 s1 c hlog h1
        obtain ⟨e, he, hsub⟩ := ih s1 outs1 s2 (c ++ d ++ returned code ptr1) hd h2
        refine ⟨d ++ returned code ptr1 ++ e, by simp [he], ?_⟩
        simp only [released, List.append_assoc]
        exact List.Sublist.trans (List.Sublist.append_left hsub _)
          (List.sublist_append_right _ _)

lemma fetch_packets_loop_forget (R : IReader σ) :
    ∀ (fuel : Nat) (s : DelayedReader (σ × List Packet)) (pp : PacketPtr),
      (DelayedReader.fetch_packets_loop_ R.logged fuel s pp).map
          (fun x => (x.1, x.2.forget)) =
        DelayedReader.fetch_packets_loop_ R fuel s.forget pp := by
  intro fuel
  induction fuel with
  | zero => intro s pp; rfl
  | succ f ih =>
    intro s pp
    rcases hr : R.read s.reader_.1 pp with ⟨code, pp1, r1⟩
    simp only [DelayedReader.fetch_packets_loop_, IReader.logged, DelayedReader.forget, hr]
    by_cases hc : code = StatusOK
    · subst hc
      cases pp1 with
      | none => simp [Queue.write]
      | some p =>
        simp only [Queue.write, ne_eq, not_true_eq_false, if_false]
        exact ih _ _
    · by_cases hd : code = StatusDrain
      · simp [hc, hd, DelayedReader.forget]
      · simp [hc, hd, DelayedReader.forget]

lemma fetch_packets_forget (R : IReader σ) (fuel : Nat) (s : DelayedReader (σ × List Packet)) :
    (DelayedReader.fetch_packets_ R.logged fuel s).map (fun x => (x.1, x.2.forget)) =
      DelayedReader.fetch_packets_ R fuel s.forget := by
  unfold DelayedReader.fetch_packets_
  rw [← fetch_packets_loop_forget R fuel s none]
  rcases DelayedReader.fetch_packets_loop_ R.logged fuel s none with _ | ⟨st, s1⟩
  · rfl
  · cases st with
    | none =>
      simp only [Option.map_some']
      by_cases hlt : DelayedReader.queue_size_ s1.queue_ < s1.delay_
      · simp [hlt, DelayedReader.forget]
      · simp [hlt, DelayedReader.forget]
    | some c => rfl

lemma read_queued_packet_forget :
    ∀ (fuel : Nat) (s : DelayedReader (σ × List Packet)) (pp : PacketPtr),
      (DelayedReader.read_queued_packet_ fuel s pp).map
          (fun x => (x.1, x.2.1, x.2.2.forget)) =
        DelayedReader.read_queued_packet_ fuel s.forget pp := by
  intro fuel
  induction fuel with
  | zero => intro s pp; rfl
  | succ f ih =>
    intro s pp
    rcases hq : s.queue_.list_ with _ | ⟨p, rest⟩
    · simp [DelayedReader.read_queued_packet_, Queue.read, hq, DelayedReader.forget]
    · by_cases hlt : DelayedReader.queue_size_ { list_ := rest } < s.delay_
      · simp [DelayedReader.read_queued_packet_, Queue.read, hq, hlt, DelayedReader.forget]
      · simp only [DelayedReader.read_queued_packet_, Queue.read, hq, DelayedReader.forget]
        simp only [ne_eq, not_true_eq_false, if_false, hlt]
        exact ih _ _

lemma read_started_forget (R : IReader σ) (fuel : Nat) (s : DelayedReader (σ × List Packet))
    (ptr : PacketPtr) :
    (DelayedReader.read_started_ R.logged fuel s ptr).map
        (fun x => (x.1, x.2.1, x.2.2.forget)) =
      DelayedReader.read_started_ R fuel s.forget ptr := by
  unfold DelayedReader.read_started_
  by_cases hsize : s.queue_.size = 0
  · simp [hsize, DelayedReader.forget, IReader.logged]
  · have hsize' : s.forget.queue_.size ≠ 0 := hsize
    simp only [ne_eq, hsize, hsize', not_false_eq_true, if_true]
    exact read_queued_packet_forget fuel s ptr

lemma read_forget (R : IReader σ) (fuel : Nat) (s : DelayedReader (σ × List Packet))
    (ptr : PacketPtr) :
    (DelayedReader.read R.logged fuel s ptr).map (fun x => (x.1, x.2.1, x.2.2.forget)) =
      DelayedReader.read R fuel s.forget ptr := by
  unfold DelayedReader.read
  have hi : s.forget.init_status_ = s.init_status_ := rfl
  have hs : s.forget.started_ = s.started_ := rfl
  rw [hi, hs, ← fetch_packets_forget R fuel s]
  by_cases hinit : s.init_status_ = StatusOK
  · by_cases hst : s.started_ = true
    · simp only [hinit, hst, ne_eq, not_true_eq_false, if_false, Bool.not_true]
      exact read_started_forget R fuel s ptr
    · simp only [hinit, hst, ne_eq, not_true_eq_false, if_false, Bool.not_eq_true] 
      rcases DelayedReader.fetch_packets_ R.logged fuel s with _ | ⟨c1, s1⟩
      · simp
      · by_cases hc : c1 = StatusOK
        · simp [hc]
          exact read_started_forget R fuel { s1 with started_ := true } ptr
        · simp [hc]
  · simp [hinit]

lemma read_many_forget (R : IReader σ) (fuel : Nat) :
    ∀ (ptrs : List PacketPtr) (s : DelayedReader (σ × List Packet)),
      (DelayedReader.read_many R.logged fuel ptrs s).map (fun x => (x.1, x.2.forget)) =
        DelayedReader.read_many R fuel ptrs s.forget := by
  intro ptrs
  induction ptrs with
  | nil => intro s; rfl
  | cons ptr ptrs ih =>
    intro s
    simp only [DelayedReader.read_many]
    rw [← read_forget R fuel s ptr]
    rcases DelayedReader.read R.logged fuel s ptr with _ | ⟨code, ptr1, s1⟩
    · rfl
    · simp only [Option.map_some']
      rw [← ih s1]
      rcases DelayedReader.read_many R.logged fuel ptrs s1 with _ | ⟨outs, s2⟩
      · rfl
      · rfl

/-- C4 (order preservation). Take any sequence of `read` calls on a newly
constructed delayed reader over any upstream reader. The same calls with a
recorder attached to the upstream reader return the same statuses and packets
and end in the same state, and the packets returned with `StatusOK` form, in
the order of their return, a subsequence of the packets the recorder saw
accepted from upstream: their relative order is kept and no accepted packet is
returned twice. -/
theorem order_preservation (R : IReader σ) (r0 : σ) (target_delay : Int)
    (sample_spec : SampleSpec) (fuel : Nat) (ptrs : List PacketPtr)
    (outs : List (StatusCode × PacketPtr)) (s' : DelayedReader σ)
    (hrun : DelayedReader.read_many R fuel ptrs
      (DelayedReader.new r0 target_delay sample_spec) = some (outs, s')) :
    ∃ t : DelayedReader (σ × List Packet),
      DelayedReader.read_many R.logged fuel ptrs
        (DelayedReader.new (r0, []) target_delay sample_spec) = some (outs, t) ∧
      t.forget = s' ∧
      (released outs).Sublist t.reader_.2 := by
  have hsim := read_many_forget R fuel ptrs (DelayedReader.new (r0, []) target_delay sample_spec)
  have hnew : (DelayedReader.new (r0, []) target_delay sample_spec).forget =
      DelayedReader.new r0 target_delay sample_spec := rfl
  rw [hnew, hrun] at hsim
  rcases hl : DelayedReader.read_many R.logged fuel ptrs
      (DelayedReader.new (r0, []) target_delay sample_spec) with _ | ⟨outs1, t⟩
  · simp [hl] at hsim
  · simp [hl] at hsim
    obtain ⟨rfl, hforget⟩ := hsim
    refine ⟨t, rfl, hforget, ?_⟩
    obtain ⟨d, hd, hsub⟩ :=
      read_many_logged R fuel ptrs _ outs1 t [] (by simp [DelayedReader.new]) hl
    rw [hd]
    simpa using List.Sublist.trans hsub (List.sublist_append_left d t.queue_.list_)

/-- A concrete instance: a burst of three packets against a delay of 10 units,
then one more packet; the first read returns packet 2 and drops packets 0 and
1, the second read passes packet 3 through. -/
theorem order_preservation_witness :
    ∃ t : DelayedReader (List Step × List Packet),
      DelayedReader.read_many script_reader.logged 4 [none, none]
        (DelayedReader.new
          ([Step.packet (pkt 0), Step.packet (pkt 1), Step.packet (pkt 2),
            Step.status StatusDrain, Step.packet (pkt 3)], [])
          10000000 spec_1kHz) =
        some ([(StatusOK, some (pkt 2)), (StatusOK, some (pkt 3))], t) ∧
      t.forget =
        { reader_ := [], queue_ := { list_ := [] }, delay_ := 10, started_ := true,
          sample_spec_ := spec_1kHz, init_status_ := StatusOK } ∧
      (released [(StatusOK, some (pkt 2)), (StatusOK, some (pkt 3))]).Sublist t.reader_.2 :=
  order_preservation script_reader
    [Step.packet (pkt 0), Step.packet (pkt 1), Step.packet (pkt 2),
      Step.status StatusDrain, Step.packet (pkt 3)]
    10000000 spec_1kHz 4 [none, none]
    [(StatusOK, some (pkt 2)), (StatusOK, some (pkt 3))]
    { reader_ := [], queue_ := { list_ := [] }, delay_ := 10, started_ := true,
      sample_spec_ := spec_1kHz, init_status_ := StatusOK }
    rfl

end Order

section PassThrough

variable {σ : Type}

/-- C5 (pass-through and drain idempotence). In the Draining state with an
empty FIFO, any number of consecutive `read` calls return exactly the statuses
and pointer values that the same calls return on the upstream reader, and
leave everything but the upstream reader as it was: the FIFO is still empty,
`started_` is still true and `delay_` is unchanged. -/
theorem pass_through (R : IReader σ) (fuel : Nat) (ptrs : List PacketPtr)
    (s : DelayedReader σ)
    (hinit : s.init_status_ = StatusOK)
    (hstarted : s.started_ = true)
    (hempty : s.queue_.list_ = []) :
    DelayedReader.read_many R fuel ptrs s =
      some ((R.reads ptrs s.reader_).1, { s with reader_ := (R.reads ptrs s.reader_).2 }) := by
  induction ptrs generalizing s with
  | nil => rfl
  | cons ptr ptrs ih =>
    have hsize : s.queue_.size = 0 := by simp [Queue.size, hempty]
    have h1 : DelayedReader.read R fuel s ptr =
        some ((R.read s.reader_ ptr).1, (R.read s.reader_ ptr).2.1,
          { s with reader_ := (R.read s.reader_ ptr).2.2 }) := by
      simp [DelayedReader.read, DelayedReader.read_started_, hinit, hstarted, hsize]
    simp only [DelayedReader.read_many, h1]
    rw [ih { s with reader_ := (R.read s.reader_ ptr).2.2 } hinit hstarted hempty]
    rfl

/-- A concrete instance: an upstream with no data for two reads, then
one packet. -/
theorem pass_through_witness :
    DelayedReader.read_many script_reader 0 [none, none, none]
        { reader_ := [Step.status StatusDrain, Step.status StatusDrain, Step.packet (pkt 7)],
          queue_ := { list_ := [] }, delay_ := 40, started_ := true,
          sample_spec_ := spec_1kHz, init_status_ := StatusOK } =
      some ([(StatusDrain, none), (StatusDrain, none), (StatusOK, some (pkt 7))],
        { reader_ := [], queue_ := { list_ := [] }, delay_ := 40, started_ := true,
          sample_spec_ := spec_1kHz, init_status_ := StatusOK }) :=
  pass_through script_reader 0 [none, none, none]
    { reader_ := [Step.status StatusDrain, Step.status StatusDrain, Step.packet (pkt 7)],
      queue_ := { list_ := [] }, delay_ := 40, started_ := true,
      sample_spec_ := spec_1kHz, init_status_ := StatusOK }
    rfl rfl rfl

end PassThrough

section FailurePropagation

variable {σ : Type}

/-- C6 (failure propagation). In the Filling state, if the upstream yields
the packets `ps` and then returns a status that is neither `StatusOK` nor
`StatusDrain`, then `read` returns exactly that status, leaves the caller's
pointer as it was (no packet is released), leaves `started_` false, and the FIFO
is the previous FIFO followed by `ps`: no pulled packet is lost and a retried
`read` continues from there. -/
theorem failure_propagation (R : IReader σ) (s : DelayedReader σ) (ps : List Packet)
    (ptr : PacketPtr) (fuel : Nat)
    (hinit : s.init_status_ = StatusOK)
    (hstarted : s.started_ = false)
    (hyields : R.yields ps s.reader_ none)
    (hnotok : R.status_after ps.length s.reader_ none ≠ StatusOK)
    (hnotdrain : R.status_after ps.length s.reader_ none ≠ StatusDrain)
    (hfuel : ps.length < fuel) :
    DelayedReader.read R fuel s ptr =
      some (R.status_after ps.length s.reader_ none, ptr,
        { s with
          reader_ := (R.after (ps.length + 1) s.reader_ none).1
          queue_ := { list_ := s.queue_.list_ ++ ps } }) := by
  unfold DelayedReader.read
  rw [fetch_packets_yields R ps s fuel hyields hnotok hfuel]
  simp [hinit, hstarted, hnotok, hnotdrain]


/-- A concrete instance: one packet, then an allocation failure
upstream. -/
theorem failure_propagation_witness :
    DelayedReader.read script_reader 2
        (DelayedReader.new [Step.packet (pkt 0), Step.status StatusNoMem] 40000000 spec_1kHz)
        none =
      some (StatusNoMem, none,
        { reader_ := [], queue_ := { list_ := [pkt 0] }, delay_ := 40, started_ := false,
          sample_spec_ := spec_1kHz, init_status_ := StatusOK }) :=
  failure_propagation script_reader
    (DelayedReader.new [Step.packet (pkt 0), Step.status StatusNoMem] 40000000 spec_1kHz)
    [pkt 0] none 2 rfl rfl (by simp [IReader.yields, script_reader, DelayedReader.new])
    (by decide) (by decide) (by decide)

end FailurePropagation

section OneWay

variable {σ : Type}

lemma read_queued_packet_returns :
    ∀ (q : List Packet) (s : DelayedReader σ) (pp : PacketPtr) (fuel : Nat),
      s.queue_.list_ = q → q.length < fuel →
      ∃ r, DelayedReader.read_queued_packet_ fuel s pp = some r := by
  intro q
  induction q with
  | nil =>
    intro s pp fuel hq hfuel
    obtain ⟨f, rfl⟩ : ∃ f, fuel = f + 1 := ⟨fuel - 1, by simp at hfuel; omega⟩
    simp [DelayedReader.read_queued_packet_, Queue.read, hq]
  | cons p rest ih =>
    intro s pp fuel hq hfuel
    obtain ⟨f, rfl⟩ : ∃ f, fuel = f + 1 := ⟨fuel - 1, by simp at hfuel; omega⟩
    by_cases hlt : DelayedReader.queue_size_ { list_ := rest } < s.delay_
    · simp [DelayedReader.read_queued_packet_, Queue.read, hq, hlt]
    · simp only [DelayedReader.read_queued_packet_, Queue.read, hq]
      simp [hlt]
      obtain ⟨⟨a, b, c⟩, hr⟩ :=
        ih { s with queue_ := { list_ := rest } } (some p) f rfl (by simpa using hfuel)
      exact ⟨a, b, c, hr⟩

lemma read_started_returns (R : IReader σ) (fuel : Nat) (s : DelayedReader σ) (ptr : PacketPtr)
    (hfuel : s.queue_.size < fuel) :
    ∃ r, DelayedReader.read_started_ R fuel s ptr = some r := by
  unfold DelayedReader.read_started_
  by_cases hsize : s.queue_.size = 0
  · simp [hsize]
  · simp only [ne_eq, hsize, not_false_eq_true, if_true]
    exact read_queued_packet_returns s.queue_.list_ s ptr fuel rfl hfuel

/-- C7 (one-way state machine). A newly constructed delayed reader has
`started_ = false`; and from every state with `started_ = true`, whatever the
upstream reader does, a `read` call returns (given one loop iteration more than
there are queued packets) and the state after it still has `started_ = true`,
whatever status the call returns. -/
theorem one_way_state_machine (R : IReader σ) (reader : σ) (target_delay : Int)
    (sample_spec : SampleSpec) (fuel : Nat) (s : DelayedReader σ) (ptr : PacketPtr)
    (hinit : s.init_status_ = StatusOK)
    (hstarted : s.started_ = true)
    (hfuel : s.queue_.size < fuel) :
    (DelayedReader.new reader target_delay sample_spec).started_ = false ∧
    ∃ code ptr' s', DelayedReader.read R fuel s ptr = some (code, ptr', s') ∧
      s'.started_ = true := by
  refine ⟨rfl, ?_⟩
  obtain ⟨⟨code, ptr', s'⟩, hr⟩ := read_started_returns R fuel s ptr hfuel
  refine ⟨code, ptr', s', ?_, ?_⟩
  · simp [DelayedReader.read, hinit, hstarted, hr]
  · obtain ⟨_, h2, _⟩ := read_started_post R fuel s ptr code ptr' s' hr
    rw [h2, hstarted]

/-- A concrete instance: a started reader with two queued
packets and a failing upstream. -/
theorem one_way_state_machine_witness :
    (DelayedReader.new [Step.status StatusNoMem] 40000000 spec_1kHz).started_ = false ∧
    ∃ code ptr' s',
      DelayedReader.read script_reader 3
          { reader_ := [Step.status StatusNoMem], queue_ := { list_ := [pkt 0, pkt 1] },
            delay_ := 40, started_ := true, sample_spec_ := spec_1kHz,
            init_status_ := StatusOK } none = some (code, ptr', s') ∧
        s'.started_ = true :=
  one_way_state_machine script_reader [Step.status StatusNoMem] 40000000 spec_1kHz 3
    { reader_ := [Step.status StatusNoMem], queue_ := { list_ := [pkt 0, pkt 1] },
      delay_ := 40, started_ := true, sample_spec_ := spec_1kHz, init_status_ := StatusOK }
    none rfl rfl (by decide)

end OneWay

section DeliveryAndFilling

variable {σ : Type}

/-- C8 (non-empty FIFO always delivers) fails for `target_delay = 0`. A reader
constructed with `target_delay = 0` whose upstream has two packets available
pulls both into the FIFO and starts; `read_queued_packet_` then pops both,
since no queued duration is less than a `delay_` of zero, and returns the
status of the read on the emptied queue: the call returns `StatusDrain`, hands
no packet to the caller, and both packets are lost. -/
theorem zero_delay_discards_fifo :
    DelayedReader.read script_reader 3
        (DelayedReader.new [Step.packet (pkt 0), Step.packet (pkt 1)] 0 spec_1kHz) none =
      some (StatusDrain, none,
        { reader_ := [], queue_ := { list_ := [] }, delay_ := 0, started_ := true,
          sample_spec_ := spec_1kHz, init_status_ := StatusOK }) ∧
    DelayedReader.fetch_packets_ script_reader 3
        (DelayedReader.new [Step.packet (pkt 0), Step.packet (pkt 1)] 0 spec_1kHz) =
      some (StatusOK,
        { reader_ := [], queue_ := { list_ := [pkt 0, pkt 1] }, delay_ := 0, started_ := false,
          sample_spec_ := spec_1kHz, init_status_ := StatusOK }) :=
  ⟨rfl, rfl⟩

/-- C9 as stated fails: with a delay of 10 units and three packets of 10 units
available upstream, the threshold is reached once packet 0 is queued, yet the
`read` call consumes all three packets from upstream (and returns packet 2). -/
theorem filling_stops_at_threshold_counterexample :
    ¬ DelayedReader.queue_size_ { list_ := [pkt 0] } <
        (DelayedReader.new [Step.packet (pkt 0), Step.packet (pkt 1), Step.packet (pkt 2)]
          10000000 spec_1kHz).delay_ ∧
    DelayedReader.read script_reader 4
        (DelayedReader.new [Step.packet (pkt 0), Step.packet (pkt 1), Step.packet (pkt 2)]
          10000000 spec_1kHz) none =
      some (StatusOK, some (pkt 2),
        { reader_ := [], queue_ := { list_ := [] }, delay_ := 10, started_ := true,
          sample_spec_ := spec_1kHz, init_status_ := StatusOK }) :=
  ⟨by decide, rfl⟩

/-- C9, amended (filling stops at the first non-success status). In the Filling
state `fetch_packets_` pulls packets from upstream one at a time and stops only
when an upstream read returns a status other than `StatusOK`: if the upstream
yields the packets `ps` and then such a status, all of `ps` is consumed and
appended to the FIFO, and exactly `ps.length + 1` upstream reads are made. The
queued duration is compared with `delay_` once, after the drain status; another
status is returned as it is. -/
theorem filling_stops_at_drain (R : IReader σ) (s : DelayedReader σ) (ps : List Packet)
    (fuel : Nat)
    (hyields : R.yields ps s.reader_ none)
    (hnotok : R.status_after ps.length s.reader_ none ≠ StatusOK)
    (hfuel : ps.length < fuel) :
    DelayedReader.fetch_packets_ R fuel s =
      some (if R.status_after ps.length s.reader_ none = StatusDrain then
              (if DelayedReader.queue_size_ { list_ := s.queue_.list_ ++ ps } < s.delay_
                then StatusDrain else StatusOK)
            else R.status_after ps.length s.reader_ none,
        { s with
          reader_ := (R.after (ps.length + 1) s.reader_ none).1
          queue_ := { list_ := s.queue_.list_ ++ ps } }) :=
  fetch_packets_yields R ps s fuel hyields hnotok hfuel

/-- A concrete instance: three packets of 10 units upstream
against a delay of 10 units. -/
theorem filling_stops_at_drain_witness :
    DelayedReader.fetch_packets_ script_reader 4
        (DelayedReader.new [Step.packet (pkt 0), Step.packet (pkt 1), Step.packet (pkt 2)]
          10000000 spec_1kHz) =
      some (StatusOK,
        { reader_ := [], queue_ := { list_ := [pkt 0, pkt 1, pkt 2] }, delay_ := 10,
          started_ := false, sample_spec_ := spec_1kHz, init_status_ := StatusOK }) :=
  filling_stops_at_drain script_reader
    (DelayedReader.new [Step.packet (pkt 0), Step.packet (pkt 1), Step.packet (pkt 2)]
      10000000 spec_1kHz)
    [pkt 0, pkt 1, pkt 2] 4 (by simp [IReader.yields, script_reader, DelayedReader.new])
    (by decide) (by decide)

end DeliveryAndFilling

section Scenario

/-- C10 (example scenario). With a delay of 40 timestamp units (40 ms at 1000
units per second), an initially empty delayed reader and packets `i = 0, 1, 2,
...` of timestamp `10 * i` and duration 10, one of which becomes available
upstream before each `read` call: the first three calls return the drain
status, the fourth returns `StatusOK` with packet 0, and the queued duration
right after the fourth call is 30. -/
theorem example_scenario (rest : List Step) (fuel : Nat) :
    DelayedReader.read_many script_reader (fuel + 2) [none, none, none, none]
        (DelayedReader.new
          (Step.packet (pkt 0) :: Step.status StatusDrain ::
            Step.packet (pkt 1) :: Step.status StatusDrain ::
            Step.packet (pkt 2) :: Step.status StatusDrain ::
            Step.packet (pkt 3) :: Step.status StatusDrain :: rest)
          40000000 spec_1kHz) =
      some ([(StatusDrain, none), (StatusDrain, none), (StatusDrain, none),
          (StatusOK, some (pkt 0))],
        { reader_ := rest, queue_ := { list_ := [pkt 1, pkt 2, pkt 3] }, delay_ := 40,
          started_ := true, sample_spec_ := spec_1kHz, init_status_ := StatusOK }) ∧
    DelayedReader.queue_size_ { list_ := [pkt 1, pkt 2, pkt 3] } = 30 := by
  refine ⟨?_, by decide⟩
  cases fuel <;> rfl

end Scenario

section QueueSize

variable {σ : Type}

lemma stream_timestamp_diff_wrap (t d h : Nat) (hh : h < 2 ^ 32) :
    stream_timestamp_diff ((t + d) % 2 ^ 32) h =
      if (t + d + 2 ^ 32 - h) % 2 ^ 32 < 2 ^ 31 then (((t + d + 2 ^ 32 - h) % 2 ^ 32 : Nat) : Int)
      else (((t + d + 2 ^ 32 - h) % 2 ^ 32 : Nat) : Int) - 2 ^ 32 := by
  have e : ((t + d) % 2 ^ 32 % 2 ^ 32 + 2 ^ 32 - h % 2 ^ 32) % 2 ^ 32 =
      (t + d + 2 ^ 32 - h) % 2 ^ 32 := by
    omega
  unfold stream_timestamp_diff
  simp only [e]

lemma queue_size_of_head_tail (q : List Packet) (ph pt : Packet)
    (hhead : q.head? = some ph) (hlast : q.getLast? = some pt)
    (hh : ph.stream_timestamp < 2 ^ 32) :
    DelayedReader.queue_size_ { list_ := q } =
      if (pt.stream_timestamp + pt.duration + 2 ^ 32 - ph.stream_timestamp) % 2 ^ 32 < 2 ^ 31
      then (pt.stream_timestamp + pt.duration + 2 ^ 32 - ph.stream_timestamp) % 2 ^ 32
      else 0 := by
  have hne : q ≠ [] := by
    rintro rfl
    simp at hhead
  have hsize : ¬ (Queue.size { list_ := q } = 0) := by
    simpa [Queue.size] using hne
  simp only [DelayedReader.queue_size_, hsize, if_false, Queue.tail, Queue.head, hhead, hlast]
  rw [stream_timestamp_diff_wrap _ _ _ hh]
  by_cases hS : (pt.stream_timestamp + pt.duration + 2 ^ 32 - ph.stream_timestamp) % 2 ^ 32 < 2 ^ 31
  · simp only [hS, if_true]
    have : ¬ ((((pt.stream_timestamp + pt.duration + 2 ^ 32 - ph.stream_timestamp) % 2 ^ 32 : Nat)
        : Int) < 0) := by omega
    simp only [this, if_false, Int.toNat_ofNat]
  · simp only [hS, if_false]
    have : ((((pt.stream_timestamp + pt.duration + 2 ^ 32 - ph.stream_timestamp) % 2 ^ 32 : Nat)
        : Int) - 2 ^ 32 < 0) := by omega
    simp only [this, if_true]

/-- C11 (wraparound-safe queued duration). For a non-empty FIFO whose oldest
packet has the 32-bit timestamp `h` and whose newest packet has the 32-bit
timestamp `t` and duration `d`, if the span `S = (t + d - h) mod 2 ^ 32` is less
than `2 ^ 31` then `queue_size_` returns exactly `S`, also when `t + d` or `t`
has wrapped past `2 ^ 32` and `h` has not: `h = 2 ^ 32 - 10`, `t = 0`, `d = 10`
gives 20. For the empty FIFO it returns 0. -/
theorem wraparound_safe_queue_size (q : List Packet) (ph pt : Packet)
    (hhead : q.head? = some ph) (hlast : q.getLast? = some pt)
    (hh : ph.stream_timestamp < 2 ^ 32)
    (hspan : (pt.stream_timestamp + pt.duration + 2 ^ 32 - ph.stream_timestamp) % 2 ^ 32
      < 2 ^ 31) :
    DelayedReader.queue_size_ { list_ := q } =
        (pt.stream_timestamp + pt.duration + 2 ^ 32 - ph.stream_timestamp) % 2 ^ 32 ∧
      DelayedReader.queue_size_
          { list_ := [{ stream_timestamp := 2 ^ 32 - 10, duration := 10, payload := 0 },
                      { stream_timestamp := 0, duration := 10, payload := 1 }] } = 20 ∧
      DelayedReader.queue_size_ { list_ := [] } = 0 := by
  refine ⟨?_, by decide, rfl⟩
  rw [queue_size_of_head_tail q ph pt hhead hlast hh]
  simp only [hspan, if_true]

/-- A concrete instance: the oldest packet starts 20 units before the wrap,
the newest one ends 20 units after it. -/
theorem wraparound_safe_queue_size_witness :
    DelayedReader.queue_size_
          { list_ := [{ stream_timestamp := 2 ^ 32 - 20, duration := 10, payload := 0 },
                      { stream_timestamp := 2 ^ 32 - 10, duration := 10, payload := 1 },
                      { stream_timestamp := 0, duration := 10, payload := 2 },
                      { stream_timestamp := 10, duration := 10, payload := 3 }] } =
        (10 + 10 + 2 ^ 32 - (2 ^ 32 - 20)) % 2 ^ 32 ∧
      DelayedReader.queue_size_
          { list_ := [{ stream_timestamp := 2 ^ 32 - 10, duration := 10, payload := 0 },
                      { stream_timestamp := 0, duration := 10, payload := 1 }] } = 20 ∧
      DelayedReader.queue_size_ { list_ := [] } = 0 :=
  wraparound_safe_queue_size
    [{ stream_timestamp := 2 ^ 32 - 20, duration := 10, payload := 0 },
      { stream_timestamp := 2 ^ 32 - 10, duration := 10, payload := 1 },
      { stream_timestamp := 0, duration := 10, payload := 2 },
      { stream_timestamp := 10, duration := 10, payload := 3 }]
    { stream_timestamp := 2 ^ 32 - 20, duration := 10, payload := 0 }
    { stream_timestamp := 10, duration := 10, payload := 3 }
    rfl rfl (by decide) (by decide)

/-- C12 (negative size clamps to zero). For a non-empty FIFO in which the
signed 32-bit difference between the end of the newest packet and the start of
the oldest one is negative, that is `(t + d - h) mod 2 ^ 32 >= 2 ^ 31`,
`queue_size_` returns 0; and a `read` in the Filling state with `delay_ > 0`
whose upstream drains with such a FIFO finds the buffer below the threshold:
it returns the drain status, keeps the packets and does not start. -/
theorem negative_size_clamps_to_zero (q : List Packet) (ph pt : Packet)
    (hhead : q.head? = some ph) (hlast : q.getLast? = some pt)
    (hh : ph.stream_timestamp < 2 ^ 32)
    (hneg : 2 ^ 31 ≤
      (pt.stream_timestamp + pt.duration + 2 ^ 32 - ph.stream_timestamp) % 2 ^ 32) :
    DelayedReader.queue_size_ { list_ := q } = 0 ∧
      ∀ (R : IReader σ) (s : DelayedReader σ) (ps : List Packet) (ptr : PacketPtr)
        (fuel : Nat),
        s.init_status_ = StatusOK → s.started_ = false → 0 < s.delay_ →
        s.queue_.list_ ++ ps = q →
        R.yields ps s.reader_ none →
        R.status_after ps.length s.reader_ none = StatusDrain →
        ps.length < fuel →
        DelayedReader.read R fuel s ptr =
          some (StatusDrain, ptr,
            { s with
              reader_ := (R.after (ps.length + 1) s.reader_ none).1
              queue_ := { list_ := q } }) := by
  have hzero : DelayedReader.queue_size_ { list_ := q } = 0 := by
    rw [queue_size_of_head_tail q ph pt hhead hlast hh]
    have : ¬ ((pt.stream_timestamp + pt.duration + 2 ^ 32 - ph.stream_timestamp) % 2 ^ 32
        < 2 ^ 31) := by omega
    simp only [this, if_false]
  refine ⟨hzero, ?_⟩
  intro R s ps ptr fuel hinit hstarted hdelay hq hyields hdrain hfuel
  subst hq
  unfold DelayedReader.read
  rw [fetch_packets_yields R ps s fuel hyields (by rw [hdrain]; decide) hfuel]
  simp [hinit, hstarted, hdrain, hzero, hdelay]

/-- A concrete instance: the newest packet lies 100 units before the oldest
one; the first packet is queued already, the second one is pulled by the read. -/
theorem negative_size_clamps_to_zero_witness :
    DelayedReader.queue_size_
        { list_ := [{ stream_timestamp := 200, duration := 10, payload := 0 },
                    { stream_timestamp := 100, duration := 10, payload := 1 }] } = 0 ∧
      DelayedReader.read script_reader 2
          { reader_ := [Step.packet { stream_timestamp := 100, duration := 10, payload := 1 }],
            queue_ := { list_ := [{ stream_timestamp := 200, duration := 10, payload := 0 }] },
            delay_ := 1, started_ := false, sample_spec_ := spec_1kHz,
            init_status_ := StatusOK } none =
        some (StatusDrain, none,
          { reader_ := [],
            queue_ :=
              { list_ := [{ stream_timestamp := 200, duration := 10, payload := 0 },
                          { stream_timestamp := 100, duration := 10, payload := 1 }] },
            delay_ := 1, started_ := false, sample_spec_ := spec_1kHz,
            init_status_ := StatusOK }) :=
  ⟨(@negative_size_clamps_to_zero (List Step)
      [{ stream_timestamp := 200, duration := 10, payload := 0 },
        { stream_timestamp := 100, duration := 10, payload := 1 }]
      { stream_timestamp := 200, duration := 10, payload := 0 }
      { stream_timestamp := 100, duration := 10, payload := 1 }
      rfl rfl (by decide) (by decide)).1,
    (negative_size_clamps_to_zero
      [{ stream_timestamp := 200, duration := 10, payload := 0 },
        { stream_timestamp := 100, duration := 10, payload := 1 }]
      { stream_timestamp := 200, duration := 10, payload := 0 }
      { stream_timestamp := 100, duration := 10, payload := 1 }
      rfl rfl (by decide) (by decide)).2 script_reader
      { reader_ := [Step.packet { stream_timestamp := 100, duration := 10, payload := 1 }],
        queue_ := { list_ := [{ stream_timestamp := 200, duration := 10, payload := 0 }] },
        delay_ := 1, started_ := false, sample_spec_ := spec_1kHz, init_status_ := StatusOK }
      [{ stream_timestamp := 100, duration := 10, payload := 1 }] none 2
      rfl rfl (by decide) rfl (by simp [IReader.yields, script_reader]) (by decide)
      (by decide)⟩

end QueueSize

section NoRefill

variable {σ : Type}

lemma read_many_of_empty (R : IReader σ) (fuel : Nat) :
    ∀ (ptrs : List PacketPtr) (s : DelayedReader σ),
      s.init_status_ = StatusOK → s.started_ = true → s.queue_.list_ = [] →
      DelayedReader.read_many R fuel ptrs s =
        some ((R.reads ptrs s.reader_).1, { s with reader_ := (R.reads ptrs s.reader_).2 }) := by
  intro ptrs
  induction ptrs with
  | nil => intro s _ _ _; rfl
  | cons ptr ptrs ih =>
    intro s hinit hstarted hempty
    have hsize : s.queue_.size = 0 := by simp [Queue.size, hempty]
    have h1 : DelayedReader.read R fuel s ptr =
        some ((R.read s.reader_ ptr).1, (R.read s.reader_ ptr).2.1,
          { s with reader_ := (R.read s.reader_ ptr).2.2 }) := by
      simp [DelayedReader.read, DelayedReader.read_started_, hinit, hstarted, hsize]
    simp only [DelayedReader.read_many, h1]
    rw [ih { s with reader_ := (R.read s.reader_ ptr).2.2 } hinit hstarted hempty]
    rfl

/-- C14 (no refill after start). In the Draining state a `read` call returns,
and the FIFO after the call is a suffix of the FIFO before it: nothing is
appended; while the FIFO is not empty the upstream reader is not even read.
Hence once the FIFO is empty it stays empty, and any number of later reads are
passed through to the upstream reader. -/
theorem no_refill_after_start (R : IReader σ) (fuel : Nat) (s : DelayedReader σ)
    (ptr : PacketPtr)
    (hinit : s.init_status_ = StatusOK)
    (hstarted : s.started_ = true)
    (hfuel : s.queue_.size < fuel) :
    (∃ code ptr' s', DelayedReader.read R fuel s ptr = some (code, ptr', s') ∧
      (∃ dropped, s.queue_.list_ = dropped ++ s'.queue_.list_) ∧
      (s.queue_.list_ ≠ [] → s'.reader_ = s.reader_)) ∧
    (s.queue_.list_ = [] → ∀ ptrs : List PacketPtr,
      DelayedReader.read_many R fuel ptrs s =
        some ((R.reads ptrs s.reader_).1,
          { s with reader_ := (R.reads ptrs s.reader_).2 })) := by
  refine ⟨?_, fun hempty ptrs => read_many_of_empty R fuel ptrs s hinit hstarted hempty⟩
  obtain ⟨⟨code, ptr', s'⟩, hr⟩ := read_started_returns R fuel s ptr hfuel
  refine ⟨code, ptr', s', ?_, ?_, ?_⟩
  · simp [DelayedReader.read, hinit, hstarted, hr]
  · obtain ⟨_, _, _, _, h5⟩ := read_started_post R fuel s ptr code ptr' s' hr
    exact h5
  · intro hne
    have hsize : s.queue_.size ≠ 0 := by simpa [Queue.size] using hne
    simp only [DelayedReader.read_started_, ne_eq, hsize, not_false_eq_true, if_true] at hr
    exact (read_queued_packet_post fuel s ptr code ptr' s' hr).1

/-- A concrete instance: a started reader with two queued packets and more
packets waiting upstream. -/
theorem no_refill_after_start_witness :
    (∃ code ptr' s',
      DelayedReader.read script_reader 3
          { reader_ := [Step.packet (pkt 2), Step.packet (pkt 3)],
            queue_ := { list_ := [pkt 0, pkt 1] }, delay_ := 40, started_ := true,
            sample_spec_ := spec_1kHz, init_status_ := StatusOK } none =
        some (code, ptr', s') ∧
      (∃ dropped, [pkt 0, pkt 1] = dropped ++ s'.queue_.list_) ∧
      ([pkt 0, pkt 1] ≠ [] → s'.reader_ = [Step.packet (pkt 2), Step.packet (pkt 3)])) ∧
    ([pkt 0, pkt 1] = [] → ∀ ptrs : List PacketPtr,
      DelayedReader.read_many script_reader 3 ptrs
          { reader_ := [Step.packet (pkt 2), Step.packet (pkt 3)],
            queue_ := { list_ := [pkt 0, pkt 1] }, delay_ := 40, started_ := true,
            sample_spec_ := spec_1kHz, init_status_ := StatusOK } =
        some ((script_reader.reads ptrs [Step.packet (pkt 2), Step.packet (pkt 3)]).1,
          { reader_ := (script_reader.reads ptrs [Step.packet (pkt 2), Step.packet (pkt 3)]).2,
            queue_ := { list_ := [pkt 0, pkt 1] }, delay_ := 40, started_ := true,
            sample_spec_ := spec_1kHz, init_status_ := StatusOK })) :=
  no_refill_after_start script_reader 3
    { reader_ := [Step.packet (pkt 2), Step.packet (pkt 3)],
      queue_ := { list_ := [pkt 0, pkt 1] }, delay_ := 40, started_ := true,
      sample_spec_ := spec_1kHz, init_status_ := StatusOK }
    none rfl rfl (by decide)

end NoRefill

section Termination

variable {σ : Type}

lemma fetch_packets_loop_short (R : IReader σ) :
    ∀ (ps : List Packet) (s : DelayedReader σ) (pp : PacketPtr),
      R.yields ps s.reader_ pp →
      DelayedReader.fetch_packets_loop_ R ps.length s pp = none := by
  intro ps
  induction ps with
  | nil => intro s pp _; rfl
  | cons p ps ih =>
    intro s pp hy
    rcases hr : R.read s.reader_ pp with ⟨code, pp1, r1⟩
    simp only [IReader.yields, hr] at hy
    obtain ⟨hc, hp, hy⟩ := hy
    subst hc hp
    simp only [List.length_cons, DelayedReader.fetch_packets_loop_, hr, Queue.write]
    simp only [ne_eq, not_true_eq_false, if_false]
    exact ih { s with reader_ := r1, queue_ := { list_ := s.queue_.list_ ++ [p] } } (some p) hy

/-- C15 (termination). One unit of `fuel` is one iteration of a loop, and every
iteration of `read_queued_packet_` pops the FIFO once and every iteration of
`fetch_packets_` reads the upstream once. With a FIFO of `n` packets
`read_queued_packet_` returns within `n + 1` iterations, whatever `delay_` is.
If the upstream yields the packets `ps` and then a status other than
`StatusOK`, `fetch_packets_` returns after exactly `ps.length + 1` iterations
(it has not returned after `ps.length`), having pulled the `ps.length` packets
and read the upstream `ps.length + 1` times; and `read` returns as well. -/
theorem loops_terminate (R : IReader σ) (s : DelayedReader σ) (ps : List Packet)
    (pp ptr : PacketPtr) (fuel : Nat)
    (hinit : s.init_status_ = StatusOK)
    (hyields : R.yields ps s.reader_ none)
    (hnotok : R.status_after ps.length s.reader_ none ≠ StatusOK)
    (hfuel : s.queue_.size + ps.length < fuel) :
    (∃ r, DelayedReader.read_queued_packet_ (s.queue_.size + 1) s pp = some r) ∧
    (∃ code s', DelayedReader.fetch_packets_ R (ps.length + 1) s = some (code, s') ∧
      s'.reader_ = (R.after (ps.length + 1) s.reader_ none).1 ∧
      s'.queue_.list_ = s.queue_.list_ ++ ps) ∧
    DelayedReader.fetch_packets_ R ps.length s = none ∧
    (∃ r, DelayedReader.read R fuel s ptr = some r) := by
  refine ⟨?_, ?_, ?_, ?_⟩
  · exact read_queued_packet_returns s.queue_.list_ s pp (s.queue_.size + 1) rfl
      (by simp [Queue.size])
  · rw [fetch_packets_yields R ps s (ps.length + 1) hyields hnotok (by omega)]
    exact ⟨_, _, rfl, rfl, rfl⟩
  · simp [DelayedReader.fetch_packets_, fetch_packets_loop_short R ps s none hyields]
  · by_cases hst : s.started_ = true
    · obtain ⟨r, hr⟩ := read_started_returns R fuel s ptr (by omega)
      exact ⟨r, by simp [DelayedReader.read, hinit, hst, hr]⟩
    · have hf := fetch_packets_yields R ps s fuel hyields hnotok (by omega)
      generalize (if R.status_after ps.length s.reader_ none = StatusDrain then
          (if DelayedReader.queue_size_ { list_ := s.queue_.list_ ++ ps } < s.delay_
            then StatusDrain else StatusOK)
          else R.status_after ps.length s.reader_ none) = c at hf
      simp only [Bool.not_eq_true] at hst
      by_cases hc : c = StatusOK
      · obtain ⟨r, hr⟩ := read_started_returns R fuel
          { s with
            reader_ := (R.after (ps.length + 1) s.reader_ none).1
            queue_ := { list_ := s.queue_.list_ ++ ps }
            started_ := true } ptr (by simpa [Queue.size] using hfuel)
        refine ⟨r, ?_⟩
        simp only [DelayedReader.read, hf, hst, hc, hinit, ne_eq, not_true_eq_false, if_false,
          Bool.not_false, if_true]
        simpa [hinit] using hr
      · apply Option.isSome_iff_exists.mp
        simp [DelayedReader.read, hinit, hst, hf, hc]

/-- A concrete instance: one queued packet, two more upstream and then the
drain status. -/
theorem loops_terminate_witness :
    (∃ r, DelayedReader.read_queued_packet_ (1 + 1)
        { reader_ := [Step.packet (pkt 1), Step.packet (pkt 2)],
          queue_ := { list_ := [pkt 0] }, delay_ := 0, started_ := false,
          sample_spec_ := spec_1kHz, init_status_ := StatusOK } none = some r) ∧
    (∃ code s', DelayedReader.fetch_packets_ script_reader (2 + 1)
        { reader_ := [Step.packet (pkt 1), Step.packet (pkt 2)],
          queue_ := { list_ := [pkt 0] }, delay_ := 0, started_ := false,
          sample_spec_ := spec_1kHz, init_status_ := StatusOK } = some (code, s') ∧
      s'.reader_ = [] ∧
      s'.queue_.list_ = [pkt 0] ++ [pkt 1, pkt 2]) ∧
    DelayedReader.fetch_packets_ script_reader 2
        { reader_ := [Step.packet (pkt 1), Step.packet (pkt 2)],
          queue_ := { list_ := [pkt 0] }, delay_ := 0, started_ := false,
          sample_spec_ := spec_1kHz, init_status_ := StatusOK } = none ∧
    (∃ r, DelayedReader.read script_reader 4
        { reader_ := [Step.packet (pkt 1), Step.packet (pkt 2)],
          queue_ := { list_ := [pkt 0] }, delay_ := 0, started_ := false,
          sample_spec_ := spec_1kHz, init_status_ := StatusOK } none = some r) :=
  loops_terminate script_reader
    { reader_ := [Step.packet (pkt 1), Step.packet (pkt 2)],
      queue_ := { list_ := [pkt 0] }, delay_ := 0, started_ := false,
      sample_spec_ := spec_1kHz, init_status_ := StatusOK }
    [pkt 1, pkt 2] none none 4 rfl (by simp [IReader.yields, script_reader]) (by decide)
    (by decide)

end Termination

section Registry

lemma add_format_cases (is_valid : audio.SampleSpec → Bool) (m : FormatMap) (fmt : Format)
    (node r : Bool) (m' : FormatMap)
    (h : FormatMap.add_format is_valid m fmt node = some (r, m')) :
    (r = false ∧ m' = m) ∨
      (r = true ∧ m.node_map_.find fmt.payload_type = none ∧
        m' = { node_map_ := m.node_map_.insert fmt, node_list_ := m.node_list_ ++ [fmt] }) := by
  unfold FormatMap.add_format at h
  split at h
  · simp at h
  · split at h
    · simp at h
    · split at h
      · simp at h
      · split at h
        · simp only [Option.some.injEq, Prod.mk.injEq] at h
          obtain ⟨h1, h2⟩ := h
          subst h1 h2
          exact Or.inl ⟨rfl, rfl⟩
        · split at h
          · simp only [Option.some.injEq, Prod.mk.injEq] at h
            obtain ⟨h1, h2⟩ := h
            subst h1 h2
            exact Or.inl ⟨rfl, rfl⟩
          · rename_i hfind _
            simp only [Option.some.injEq, Prod.mk.injEq] at h
            obtain ⟨h1, h2⟩ := h
            subst h1 h2
            exact Or.inr ⟨rfl, by simpa using hfind, rfl⟩

lemma add_builtin_eq (is_valid : audio.SampleSpec → Bool) (m : FormatMap) (fmt : Format)
    (node : Bool) (m1 : FormatMap)
    (h : FormatMap.add_builtin_ is_valid m fmt node = some m1) :
    m1 = { node_map_ := m.node_map_.insert fmt, node_list_ := m.node_list_ ++ [fmt] } := by
  unfold FormatMap.add_builtin_ at h
  rcases h1 : FormatMap.add_format is_valid m fmt node with _ | ⟨r, m2⟩
  · simp [h1] at h
  · rcases add_format_cases _ _ _ _ _ _ h1 with ⟨rfl, _⟩ | ⟨rfl, _, rfl⟩
    · simp [h1] at h
    · simp only [h1, Option.some.injEq] at h
      exact h.symm

lemma new_eq (is_valid : audio.SampleSpec → Bool) (node1 node2 : Bool) (m0 : FormatMap)
    (h : FormatMap.new is_valid node1 node2 = some m0) :
    m0 = { node_map_ := { nodes := [Format.L16_Stereo, Format.L16_Mono] },
           node_list_ := [Format.L16_Mono, Format.L16_Stereo] } := by
  unfold FormatMap.new at h
  rcases h1 : FormatMap.add_builtin_ is_valid { node_map_ := { nodes := [] }, node_list_ := [] }
      Format.L16_Mono node1 with _ | m1
  · simp [h1] at h
  · simp only [h1] at h
    rw [add_builtin_eq _ _ _ _ _ h, add_builtin_eq _ _ _ _ _ h1]
    rfl

lemma add_formats_nodes (is_valid : audio.SampleSpec → Bool) :
    ∀ (calls : List (Format × Bool)) (m : FormatMap) (rs : List Bool) (m' : FormatMap),
      FormatMap.add_formats is_valid calls m = some (rs, m') →
      m'.node_list_ = m.node_list_ ++ registered_formats calls rs ∧
      m'.node_map_.nodes = (registered_formats calls rs).reverse ++ m.node_map_.nodes := by
  intro calls
  induction calls with
  | nil =>
    intro m rs m' h
    simp [FormatMap.add_formats] at h
    obtain ⟨rfl, rfl⟩ := h
    simp [registered_formats]
  | cons call calls ih =>
    intro m rs m' h
    simp only [FormatMap.add_formats] at h
    rcases h1 : FormatMap.add_format is_valid m call.1 call.2 with _ | ⟨r, m1⟩
    · simp [h1] at h
    · simp only [h1] at h
      rcases h2 : FormatMap.add_formats is_valid calls m1 with _ | ⟨rs1, m2⟩
      · simp [h2] at h
      · simp [h2] at h
        obtain ⟨rfl, rfl⟩ := h
        obtain ⟨g1, g2⟩ := ih m1 rs1 m2 h2
        rcases add_format_cases _ _ _ _ _ _ h1 with ⟨rfl, rfl⟩ | ⟨rfl, _, rfl⟩
        · simp [registered_formats, g1, g2]
        · simp [registered_formats, g1, g2, Hashmap.insert]

lemma find_by_pt_eq_find (m : FormatMap) (pt : Nat) :
    m.find_by_pt pt = m.node_map_.nodes.find? (fun node => decide (node.payload_type = pt)) := by
  unfold FormatMap.find_by_pt Hashmap.find
  generalize List.find? (fun node => decide (node.payload_type = pt)) m.node_map_.nodes = o
  cases o <;> rfl

lemma find_by_pt_eq_none (m : FormatMap) (pt : Nat) :
    m.find_by_pt pt = none ↔ ∀ f ∈ m.node_map_.nodes, f.payload_type ≠ pt := by
  rw [find_by_pt_eq_find, List.find?_eq_none]
  simp

lemma find_by_spec_loop_none (spec : audio.SampleSpec) :
    ∀ l : List Format,
      FormatMap.find_by_spec_loop_ spec l = none ↔ ∀ f ∈ l, f.sample_spec ≠ spec := by
  intro l
  induction l with
  | nil => simp [FormatMap.find_by_spec_loop_]
  | cons g rest ih =>
    by_cases hg : g.sample_spec = spec
    · simp [FormatMap.find_by_spec_loop_, hg]
    · simp [FormatMap.find_by_spec_loop_, hg, ih]

lemma find_by_spec_loop_some (spec : audio.SampleSpec) :
    ∀ (l : List Format) (f : Format),
      FormatMap.find_by_spec_loop_ spec l = some f →
      ∃ pre post, l = pre ++ f :: post ∧ f.sample_spec = spec ∧
        ∀ g ∈ pre, g.sample_spec ≠ spec := by
  intro l
  induction l with
  | nil => intro f h; simp [FormatMap.find_by_spec_loop_] at h
  | cons g rest ih =>
    intro f h
    by_cases hg : g.sample_spec = spec
    · simp [FormatMap.find_by_spec_loop_, hg] at h
      subst h
      exact ⟨[], rest, rfl, hg, by simp⟩
    · simp [FormatMap.find_by_spec_loop_, hg] at h
      obtain ⟨pre, post, h1, h2, h3⟩ := ih f h
      refine ⟨g :: pre, post, by simp [h1], h2, ?_⟩
      intro x hx
      rcases List.mem_cons.mp hx with rfl | hx
      · exact hg
      · exact h3 x hx

lemma find_by_spec_loop_append (spec : audio.SampleSpec) :
    ∀ (l l2 : List Format),
      FormatMap.find_by_spec_loop_ spec l ≠ none →
      FormatMap.find_by_spec_loop_ spec (l ++ l2) = FormatMap.find_by_spec_loop_ spec l := by
  intro l
  induction l with
  | nil => intro l2 h; simp [FormatMap.find_by_spec_loop_] at h
  | cons g rest ih =>
    intro l2 h
    by_cases hg : g.sample_spec = spec
    · simp [FormatMap.find_by_spec_loop_, hg]
    · simp only [FormatMap.find_by_spec_loop_, hg, if_false, List.cons_append] at h ⊢
      exact ih l2 h

/-- C16 (a duplicate payload type is rejected atomically). For every state of
the format map and every well-formed format (payload type not zero, valid
sample spec, encoder and decoder constructors not null) whose payload type is
registered already, `add_format` returns `false` and leaves the state as it was,
so every `find_by_pt` and every `find_by_spec` returns what it returned before.
This covers the two built-in payload types of a newly constructed map. -/
theorem duplicate_payload_type_rejected (is_valid : audio.SampleSpec → Bool) (m : FormatMap)
    (fmt : Format) (node : Bool)
    (hpt : fmt.payload_type ≠ 0)
    (hvalid : is_valid fmt.sample_spec = true)
    (henc : fmt.new_encoder ≠ none)
    (hdec : fmt.new_decoder ≠ none)
    (hdup : m.find_by_pt fmt.payload_type ≠ none) :
    m.add_format is_valid fmt node = some (false, m) ∧
    ∀ (node1 node2 : Bool) (m0 : FormatMap),
      FormatMap.new is_valid node1 node2 = some m0 →
      fmt.payload_type = PayloadType_L16_Mono ∨ fmt.payload_type = PayloadType_L16_Stereo →
      m0.add_format is_valid fmt node = some (false, m0) := by
  have key : ∀ m1 : FormatMap, m1.find_by_pt fmt.payload_type ≠ none →
      m1.add_format is_valid fmt node = some (false, m1) := by
    intro m1 h1
    have hfind : (m1.node_map_.find fmt.payload_type).isSome = true := by
      unfold FormatMap.find_by_pt at h1
      cases hf : m1.node_map_.find fmt.payload_type with
      | none => simp [hf] at h1
      | some f => rfl
    simp [FormatMap.add_format, hpt, hvalid, henc, hdec, hfind]
  refine ⟨key m hdup, ?_⟩
  intro node1 node2 m0 hnew hbuiltin
  apply key
  rw [new_eq is_valid node1 node2 m0 hnew]
  rcases hbuiltin with h | h <;> rw [h] <;> decide

/-- A concrete instance: registering payload type 100 a second time. -/
theorem duplicate_payload_type_rejected_witness :
    FormatMap.add_format rate_is_set
        { node_map_ := { nodes := [example_format 100 48000, Format.L16_Stereo, Format.L16_Mono] },
          node_list_ := [Format.L16_Mono, Format.L16_Stereo, example_format 100 48000] }
        (example_format 100 8000) true =
      some (false,
        { node_map_ := { nodes := [example_format 100 48000, Format.L16_Stereo, Format.L16_Mono] },
          node_list_ := [Format.L16_Mono, Format.L16_Stereo, example_format 100 48000] }) ∧
    ∀ (node1 node2 : Bool) (m0 : FormatMap),
      FormatMap.new rate_is_set node1 node2 = some m0 →
      (example_format 100 8000).payload_type = PayloadType_L16_Mono ∨
        (example_format 100 8000).payload_type = PayloadType_L16_Stereo →
      m0.add_format rate_is_set (example_format 100 8000) true = some (false, m0) :=
  duplicate_payload_type_rejected rate_is_set
    { node_map_ := { nodes := [example_format 100 48000, Format.L16_Stereo, Format.L16_Mono] },
      node_list_ := [Format.L16_Mono, Format.L16_Stereo, example_format 100 48000] }
    (example_format 100 8000) true (by decide) (by decide) (by decide) (by decide) (by decide)

/-- C17 (register-then-lookup round trip). If `add_format(fmt)` returns `true`
(which it does for well-formed formats only) then `find_by_pt` of the payload
type of `fmt` returns `fmt`, and `find_by_pt` of every other payload type
returns what it returned before. After any sequence of `add_format` calls on a
newly constructed map, `find_by_pt(pt)` is null exactly if `pt` is neither a
built-in payload type nor the payload type of a call that returned `true`. -/
theorem register_then_lookup (is_valid : audio.SampleSpec → Bool) (m : FormatMap)
    (fmt : Format) (node : Bool) (m' : FormatMap)
    (hadd : m.add_format is_valid fmt node = some (true, m')) :
    m'.find_by_pt fmt.payload_type = some fmt ∧
    (∀ pt, pt ≠ fmt.payload_type → m'.find_by_pt pt = m.find_by_pt pt) ∧
    ∀ (node1 node2 : Bool) (m0 : FormatMap) (calls : List (Format × Bool)) (rs : List Bool)
      (mf : FormatMap),
      FormatMap.new is_valid node1 node2 = some m0 →
      FormatMap.add_formats is_valid calls m0 = some (rs, mf) →
      ∀ pt, mf.find_by_pt pt = none ↔
        (pt ≠ PayloadType_L16_Mono ∧ pt ≠ PayloadType_L16_Stereo ∧
          ∀ f ∈ registered_formats calls rs, f.payload_type ≠ pt) := by
  refine ⟨?_, ?_, ?_⟩
  · rcases add_format_cases _ _ _ _ _ _ hadd with ⟨h, _⟩ | ⟨_, _, rfl⟩
    · exact absurd h (by decide)
    · simp [find_by_pt_eq_find, Hashmap.insert]
  · intro pt hne
    rcases add_format_cases _ _ _ _ _ _ hadd with ⟨h, _⟩ | ⟨_, _, rfl⟩
    · exact absurd h (by decide)
    · have : ¬ (fmt.payload_type = pt) := fun h => hne h.symm
      simp [find_by_pt_eq_find, Hashmap.insert, List.find?_cons, this]
  · intro node1 node2 m0 calls rs mf hnew hrun pt
    obtain ⟨_, hmap⟩ := add_formats_nodes is_valid calls m0 rs mf hrun
    rw [find_by_pt_eq_none, hmap, new_eq is_valid node1 node2 m0 hnew]
    simp only [List.mem_append, List.mem_reverse, List.mem_cons, List.mem_singleton,
      List.not_mem_nil, or_false]
    constructor
    · intro h
      refine ⟨?_, ?_, fun f hf => h f (Or.inl hf)⟩
      · intro hpt
        exact h Format.L16_Mono (Or.inr (Or.inr rfl)) (by rw [hpt]; rfl)
      · intro hpt
        exact h Format.L16_Stereo (Or.inr (Or.inl rfl)) (by rw [hpt]; rfl)
    · rintro ⟨h1, h2, h3⟩ f hf
      rcases hf with hf | rfl | rfl
      · exact h3 f hf
      · exact fun h => h2 h.symm
      · exact fun h => h1 h.symm

/-- A concrete instance: registering payload type 100 in a newly constructed
map. -/
theorem register_then_lookup_witness :
    FormatMap.find_by_pt
        { node_map_ := { nodes := [example_format 100 48000, Format.L16_Stereo, Format.L16_Mono] },
          node_list_ := [Format.L16_Mono, Format.L16_Stereo, example_format 100 48000] }
        (example_format 100 48000).payload_type = some (example_format 100 48000) ∧
    (∀ pt, pt ≠ (example_format 100 48000).payload_type →
      FormatMap.find_by_pt
          { node_map_ :=
              { nodes := [example_format 100 48000, Format.L16_Stereo, Format.L16_Mono] },
            node_list_ := [Format.L16_Mono, Format.L16_Stereo, example_format 100 48000] } pt =
        FormatMap.find_by_pt
          { node_map_ := { nodes := [Format.L16_Stereo, Format.L16_Mono] },
            node_list_ := [Format.L16_Mono, Format.L16_Stereo] } pt) ∧
    ∀ (node1 node2 : Bool) (m0 : FormatMap) (calls : List (Format × Bool)) (rs : List Bool)
      (mf : FormatMap),
      FormatMap.new rate_is_set node1 node2 = some m0 →
      FormatMap.add_formats rate_is_set calls m0 = some (rs, mf) →
      ∀ pt, mf.find_by_pt pt = none ↔
        (pt ≠ PayloadType_L16_Mono ∧ pt ≠ PayloadType_L16_Stereo ∧
          ∀ f ∈ registered_formats calls rs, f.payload_type ≠ pt) :=
  register_then_lookup rate_is_set
    { node_map_ := { nodes := [Format.L16_Stereo, Format.L16_Mono] },
      node_list_ := [Format.L16_Mono, Format.L16_Stereo] }
    (example_format 100 48000) true
    { node_map_ := { nodes := [example_format 100 48000, Format.L16_Stereo, Format.L16_Mono] },
      node_list_ := [Format.L16_Mono, Format.L16_Stereo, example_format 100 48000] }
    (by decide)

/-- C18 (`find_by_spec` returns the earliest registration). In a map that was
constructed and then went through any sequence of `add_format` calls, the nodes
are listed in registration order, the built-in formats first and then the
formats of the calls that returned `true`. `find_by_spec(spec)` returns the
first format of that order whose sample spec equals `spec`, and null if and
only if no registered format has that sample spec. So a further `add_format`
call does not change the result of `find_by_spec` for a sample spec that is
present already. -/
theorem find_by_spec_earliest (is_valid : audio.SampleSpec → Bool) (node1 node2 : Bool)
    (m0 : FormatMap) (calls : List (Format × Bool)) (rs : List Bool) (m : FormatMap)
    (spec : audio.SampleSpec)
    (hnew : FormatMap.new is_valid node1 node2 = some m0)
    (hrun : FormatMap.add_formats is_valid calls m0 = some (rs, m)) :
    m.node_list_ = [Format.L16_Mono, Format.L16_Stereo] ++ registered_formats calls rs ∧
    (∀ f, m.find_by_spec spec = some f →
      ∃ pre post, m.node_list_ = pre ++ f :: post ∧ f.sample_spec = spec ∧
        ∀ g ∈ pre, g.sample_spec ≠ spec) ∧
    (m.find_by_spec spec = none ↔ ∀ f ∈ m.node_list_, f.sample_spec ≠ spec) ∧
    ∀ (fmt : Format) (node r : Bool) (m' : FormatMap),
      m.add_format is_valid fmt node = some (r, m') →
      m.find_by_spec spec ≠ none →
      m'.find_by_spec spec = m.find_by_spec spec := by
  refine ⟨?_, ?_, ?_, ?_⟩
  · obtain ⟨hlist, _⟩ := add_formats_nodes is_valid calls m0 rs m hrun
    rw [hlist, new_eq is_valid node1 node2 m0 hnew]
  · intro f hf
    exact find_by_spec_loop_some spec m.node_list_ f hf
  · exact find_by_spec_loop_none spec m.node_list_
  · intro fmt node r m' hadd hpresent
    rcases add_format_cases _ _ _ _ _ _ hadd with ⟨_, rfl⟩ | ⟨_, _, rfl⟩
    · rfl
    · exact find_by_spec_loop_append spec m.node_list_ [fmt] hpresent

/-- A concrete instance: three registrations after the construction; the
second one repeats a built-in payload type and is rejected, the third one has
the sample spec of the built-in mono format. -/
theorem find_by_spec_earliest_witness :
    FormatMap.node_list_
        { node_map_ :=
            { nodes := [example_format 101 44100, example_format 100 48000, Format.L16_Stereo,
                Format.L16_Mono] },
          node_list_ := [Format.L16_Mono, Format.L16_Stereo, example_format 100 48000,
            example_format 101 44100] } =
      [Format.L16_Mono, Format.L16_Stereo] ++
        registered_formats
          [(example_format 100 48000, true), (example_format 11 8000, true),
            (example_format 101 44100, true)]
          [true, false, true] ∧
    (∀ f,
      FormatMap.find_by_spec
          { node_map_ :=
              { nodes := [example_format 101 44100, example_format 100 48000,
                  Format.L16_Stereo, Format.L16_Mono] },
            node_list_ := [Format.L16_Mono, Format.L16_Stereo, example_format 100 48000,
              example_format 101 44100] }
          Format.L16_Mono.sample_spec = some f →
      ∃ pre post,
        [Format.L16_Mono, Format.L16_Stereo, example_format 100 48000,
            example_format 101 44100] = pre ++ f :: post ∧
          f.sample_spec = Format.L16_Mono.sample_spec ∧
          ∀ g ∈ pre, g.sample_spec ≠ Format.L16_Mono.sample_spec) ∧
    (FormatMap.find_by_spec
          { node_map_ :=
              { nodes := [example_format 101 44100, example_format 100 48000,
                  Format.L16_Stereo, Format.L16_Mono] },
            node_list_ := [Format.L16_Mono, Format.L16_Stereo, example_format 100 48000,
              example_format 101 44100] }
          Format.L16_Mono.sample_spec = none ↔
        ∀ f ∈ [Format.L16_Mono, Format.L16_Stereo, example_format 100 48000,
            example_format 101 44100], f.sample_spec ≠ Format.L16_Mono.sample_spec) ∧
    ∀ (fmt : Format) (node r : Bool) (m' : FormatMap),
      FormatMap.add_format rate_is_set
          { node_map_ :=
              { nodes := [example_format 101 44100, example_format 100 48000,
                  Format.L16_Stereo, Format.L16_Mono] },
            node_list_ := [Format.L16_Mono, Format.L16_Stereo, example_format 100 48000,
              example_format 101 44100] }
          fmt node = some (r, m') →
      FormatMap.find_by_spec
          { node_map_ :=
              { nodes := [example_format 101 44100, example_format 100 48000,
                  Format.L16_Stereo, Format.L16_Mono] },
            node_list_ := [Format.L16_Mono, Format.L16_Stereo, example_format 100 48000,
              example_format 101 44100] }
          Format.L16_Mono.sample_spec ≠ none →
      m'.find_by_spec Format.L16_Mono.sample_spec =
        FormatMap.find_by_spec
          { node_map_ :=
              { nodes := [example_format 101 44100, example_format 100 48000,
                  Format.L16_Stereo, Format.L16_Mono] },
            node_list_ := [Format.L16_Mono, Format.L16_Stereo, example_format 100 48000,
              example_format 101 44100] }
          Format.L16_Mono.sample_spec :=
  find_by_spec_earliest rate_is_set true true
    { node_map_ := { nodes := [Format.L16_Stereo, Format.L16_Mono] },
      node_list_ := [Format.L16_Mono, Format.L16_Stereo] }
    [(example_format 100 48000, true), (example_format 11 8000, true),
      (example_format 101 44100, true)]
    [true, false, true]
    { node_map_ :=
        { nodes := [example_format 101 44100, example_format 100 48000, Format.L16_Stereo,
            Format.L16_Mono] },
      node_list_ := [Format.L16_Mono, Format.L16_Stereo, example_format 100 48000,
        example_format 101 44100] }
    Format.L16_Mono.sample_spec (by decide) (by decide)

end Registry

section FEC

variable {F : Type} [Field F]

open Polynomial in
lemma solve_eq_eval_interpolate (S : CodingScheme F) (nodes : List Nat) (hnodup : nodes.Nodup)
    (val : Nat → F) (z : F) :
    S.solve nodes val z = (Lagrange.interpolate nodes.toFinset S.point val).eval z := by
  unfold CodingScheme.solve
  rw [Lagrange.interpolate_apply, Polynomial.eval_finset_sum, ← List.sum_toFinset _ hnodup]
  refine Finset.sum_congr rfl (fun i _ => ?_)
  rw [Polynomial.eval_mul, Polynomial.eval_C, Lagrange.basis, Polynomial.eval_prod]
  congr 1
  rw [← List.prod_toFinset _ (hnodup.filter _), List.toFinset_filter]
  have hset : Finset.filter (fun j => decide (j ≠ i) = true) nodes.toFinset =
      nodes.toFinset.erase i := by
    ext j
    simp [Finset.mem_erase, and_comm]
  rw [hset]
  refine Finset.prod_congr rfl (fun j _ => ?_)
  simp [Lagrange.basisDivisor]

omit [Field F] in
lemma range_toFinset (n : Nat) : (List.range n).toFinset = Finset.range n := by
  ext t
  simp

omit [Field F] in
lemma point_injOn (S : CodingScheme F) (n : Nat) (hn : n ≤ S.max_block_length)
    (hinj : ∀ i j, i < S.max_block_length → j < S.max_block_length →
      S.point i = S.point j → i = j)
    (T : Finset Nat) (hT : ∀ t ∈ T, t < n) : Set.InjOn S.point (T : Set Nat) := by
  intro i hi j hj hij
  exact hinj i j (lt_of_lt_of_le (hT i hi) hn) (lt_of_lt_of_le (hT j hj) hn) hij

lemma block_symbols_eval (S : CodingScheme F) (sblen rblen payload_size : Nat)
    (source : List (List F))
    (hn : sblen + rblen ≤ S.max_block_length)
    (hinj : ∀ i j, i < S.max_block_length → j < S.max_block_length →
      S.point i = S.point j → i = j)
    (hsrc : source.length = sblen)
    (t b : Nat) (ht : t < sblen + rblen) (hb : b < payload_size) :
    ((S.block_symbols sblen rblen payload_size source).getD t []).getD b 0 =
      (Lagrange.interpolate (Finset.range sblen) S.point
        (fun i => (source.getD i []).getD b 0)).eval (S.point t) := by
  have hinjOn : Set.InjOn S.point (Finset.range sblen : Set Nat) :=
    point_injOn S sblen (by omega) hinj _ (fun t ht => Finset.mem_range.mp ht)
  by_cases hlt : t < sblen
  · rw [Lagrange.eval_interpolate_at_node _ hinjOn (Finset.mem_range.mpr hlt)]
    simp [CodingScheme.block_symbols, List.getD_eq_getElem?_getD, List.getElem?_append_left,
      hsrc, hlt]
  · have hge : sblen ≤ t := Nat.le_of_not_lt hlt
    have hj : t - sblen < rblen := by omega
    have hget : (S.block_symbols sblen rblen payload_size source).getD t [] =
        (List.range payload_size).map (fun b =>
          S.solve (List.range sblen) (fun i => (source.getD i []).getD b 0) (S.point t)) := by
      simp only [CodingScheme.block_symbols, List.getD_eq_getElem?_getD]
      rw [List.getElem?_append_right (by omega), hsrc]
      simp only [CodingScheme.encode, List.getElem?_map, List.getElem?_range hj, Option.map_some',
        Option.getD_some]
      have : sblen + (t - sblen) = t := by omega
      rw [this]
      simp only [List.getD_eq_getElem?_getD]
    rw [hget]
    simp only [List.getD_eq_getElem?_getD, List.getElem?_map, List.getElem?_range hb,
      Option.map_some', Option.getD_some]
    rw [solve_eq_eval_interpolate S (List.range sblen) (List.nodup_range sblen), range_toFinset]

omit [Field F] in
lemma set_buffers_eq :
    ∀ (calls : List (Nat × Slice F)) (d : BlockDecoder F),
      d.block_open = true → (∀ c ∈ calls, c.1 < d.sblen + d.rblen) →
      BlockDecoder.set_buffers calls d =
        some { d with buffers := calls.foldl (fun bufs c => bufs.set c.1 c.2) d.buffers } := by
  intro calls
  induction calls with
  | nil => intro d _ _; rfl
  | cons c calls ih =>
    intro d hopen hrange
    have hc : ¬ (d.sblen + d.rblen ≤ c.1) := by
      have := hrange c (List.mem_cons_self _ _)
      omega
    simp only [BlockDecoder.set_buffers, BlockDecoder.set_buffer, hopen, Bool.not_true,
      Bool.false_eq_true, if_false, hc]
    exact ih
      { block_open := true, sblen := d.sblen, rblen := d.rblen, payload_size := d.payload_size,
        buffers := d.buffers.set c.1 c.2 }
      rfl (fun c' hc' => hrange c' (List.mem_cons_of_mem _ hc'))

omit [Field F] in
lemma foldl_set_getD (cw : Nat → List F) :
    ∀ (present : List Nat) (bufs : List (Slice F)),
      (∀ t ∈ present, t < bufs.length) →
      ∀ t, ((present.map (fun t => (t, some (cw t)))).foldl
            (fun (bufs : List (Slice F)) c => bufs.set c.1 c.2) bufs).getD t none =
        if t ∈ present then some (cw t) else bufs.getD t none := by
  intro present
  induction present with
  | nil => intro bufs _ t; simp
  | cons p ps ih =>
    intro bufs hrange t
    have hp : p < bufs.length := hrange p (List.mem_cons_self _ _)
    simp only [List.map_cons, List.foldl_cons]
    rw [ih (bufs.set p (some (cw p)))
      (fun t' ht' => by simpa using hrange t' (List.mem_cons_of_mem _ ht'))]
    by_cases hmem : t ∈ ps
    · simp [hmem]
    · by_cases htp : t = p
      · subst htp
        simp [hmem, List.getD_eq_getElem?_getD, List.getElem?_set_self hp]
      · have hpt : p ≠ t := fun h => htp h.symm
        simp [hmem, htp, List.getD_eq_getElem?_getD, List.getElem?_set_ne hpt]

omit [Field F] in
lemma available_length (n : Nat) (present : List Nat) (hrange : ∀ t ∈ present, t < n) :
    ((List.range n).filter (fun t => decide (t ∈ present))).length = present.dedup.length := by
  have hnodup : ((List.range n).filter (fun t => decide (t ∈ present))).Nodup :=
    (List.nodup_range n).filter _
  rw [← List.toFinset_card_of_nodup hnodup, ← List.card_toFinset]
  congr 1
  ext t
  simp only [List.toFinset_filter, decide_eq_true_eq, Finset.mem_filter, List.mem_toFinset,
    List.mem_range]
  exact ⟨fun h => h.2, fun h => ⟨hrange t h, h⟩⟩

lemma solve_recovers (S : CodingScheme F) (sblen n : Nat)
    (hn : n ≤ S.max_block_length) (hsn : sblen ≤ n)
    (hinj : ∀ i j, i < S.max_block_length → j < S.max_block_length →
      S.point i = S.point j → i = j)
    (nodes : List Nat) (hnodup : nodes.Nodup) (hlen : nodes.length = sblen)
    (hnodes : ∀ t ∈ nodes, t < n)
    (src val : Nat → F)
    (hval : ∀ t ∈ nodes,
      val t = (Lagrange.interpolate (Finset.range sblen) S.point src).eval (S.point t))
    (index : Nat) (hindex : index < sblen) :
    S.solve nodes val (S.point index) = src index := by
  have hinj1 : Set.InjOn S.point (Finset.range sblen : Set Nat) :=
    point_injOn S n hn hinj _ (fun t ht => lt_of_lt_of_le (Finset.mem_range.mp ht) hsn)
  have hinj2 : Set.InjOn S.point (nodes.toFinset : Set Nat) :=
    point_injOn S n hn hinj _ (fun t ht => hnodes t (List.mem_toFinset.mp ht))
  have hcard : nodes.toFinset.card = sblen := by
    rw [List.toFinset_card_of_nodup hnodup, hlen]
  have hdeg : (Lagrange.interpolate (Finset.range sblen) S.point src).degree <
      nodes.toFinset.card := by
    rw [hcard]
    have := Lagrange.degree_interpolate_lt src hinj1
    simpa using this
  rw [solve_eq_eval_interpolate S nodes hnodup,
    Lagrange.interpolate_eq_of_values_eq_on val
      (fun t => (Lagrange.interpolate (Finset.range sblen) S.point src).eval (S.point t))
      (fun t ht => hval t (List.mem_toFinset.mp ht)),
    ← Lagrange.eq_interpolate hinj2 hdeg,
    Lagrange.eval_interpolate_at_node src hinj1 (Finset.mem_range.mpr hindex)]

lemma map_getD_range (l : List F) (n : Nat) (hl : l.length = n) :
    (List.range n).map (fun b => l.getD b 0) = l := by
  apply List.ext_getElem
  · simp [hl]
  · intro i h1 h2
    simp [List.getD_eq_getElem?_getD, List.getElem?_eq_getElem h2]

/-- C13 (FEC reconstruction round trip). Take a block of `sblen` source symbols
of `payload_size` elements each and its `rblen` repair symbols from the
reference encoder, within the limits of the scheme. If, between `begin_block`
and `end_block`, `set_buffer` registers the symbols of the slots `present`, at
least `sblen` of them distinct, then `repair_buffer` of every source slot that
was not registered returns exactly the original source symbol. -/
theorem fec_round_trip (S : CodingScheme F) (sblen rblen payload_size : Nat)
    (source : List (List F)) (present : List Nat) (d0 : BlockDecoder F) (index : Nat)
    (hpoints : ∀ i j, i < S.max_block_length → j < S.max_block_length →
      S.point i = S.point j → i = j)
    (hshape : sblen + rblen ≤ S.max_block_length)
    (hsource : source.length = sblen)
    (hsize : ∀ symbol ∈ source, symbol.length = payload_size)
    (hclosed : d0.block_open = false)
    (hslots : ∀ t ∈ present, t < sblen + rblen)
    (henough : sblen ≤ present.dedup.length)
    (hindex : index < sblen)
    (hmissing : index ∉ present) :
    ∃ d1 d d2,
      d0.begin_block S sblen rblen payload_size true = some (StatusOK, d1) ∧
      d1.set_buffers (present.map (fun t =>
        (t, some ((S.block_symbols sblen rblen payload_size source).getD t [])))) = some d ∧
      d.repair_buffer S index = some (some (source.getD index [])) ∧
      d.end_block = some d2 := by
  refine ⟨{ block_open := true, sblen := sblen, rblen := rblen, payload_size := payload_size,
            buffers := List.replicate (sblen + rblen) none },
    { block_open := true, sblen := sblen, rblen := rblen, payload_size := payload_size,
      buffers := (present.map (fun t =>
        (t, some ((S.block_symbols sblen rblen payload_size source).getD t [])))).foldl
          (fun (bufs : List (Slice F)) c => bufs.set c.1 c.2)
          (List.replicate (sblen + rblen) none) },
    { block_open := false, sblen := sblen, rblen := rblen, payload_size := payload_size,
      buffers := [] }, ?_, ?_, ?_, ?_⟩
  · simp [BlockDecoder.begin_block, hclosed, Nat.not_lt.mpr hshape]
  · exact set_buffers_eq _ _ rfl (by
      intro c hc
      obtain ⟨t, ht, rfl⟩ := List.mem_map.mp hc
      exact hslots t ht)
  · have hbuf : ∀ t, ((present.map (fun t =>
          (t, some ((S.block_symbols sblen rblen payload_size source).getD t [])))).foldl
            (fun (bufs : List (Slice F)) c => bufs.set c.1 c.2)
            (List.replicate (sblen + rblen) none)).getD t none =
        if t ∈ present then some ((S.block_symbols sblen rblen payload_size source).getD t [])
        else none := by
      intro t
      rw [foldl_set_getD _ present _ (by simpa using hslots)]
      by_cases hmem : t ∈ present
      · simp [hmem]
      · simp only [hmem, if_false, List.getD_eq_getElem?_getD, List.getElem?_replicate]
        split <;> rfl
    have havail : (List.range (sblen + rblen)).filter (fun t =>
        (((present.map (fun t =>
          (t, some ((S.block_symbols sblen rblen payload_size source).getD t [])))).foldl
            (fun (bufs : List (Slice F)) c => bufs.set c.1 c.2)
            (List.replicate (sblen + rblen) none)).getD t none).isSome) =
        (List.range (sblen + rblen)).filter (fun t => decide (t ∈ present)) := by
      apply List.filter_congr
      intro t _
      rw [hbuf t]
      by_cases hmem : t ∈ present <;> simp [hmem]
    have hlen := available_length (sblen + rblen) present hslots
    simp only [BlockDecoder.repair_buffer, Bool.not_true, Bool.false_eq_true, if_false,
      Nat.not_le.mpr (show index < sblen + rblen by omega), hbuf index, hmissing, havail, hlen,
      henough, if_true]
    congr 2
    rw [← map_getD_range (source.getD index []) payload_size (by
      have hmem : source.getD index [] ∈ source := by
        rw [List.getD_eq_getElem _ _ (by omega)]
        exact List.getElem_mem _
      exact hsize _ hmem)]
    apply List.map_congr_left
    intro b hb
    have hb' : b < payload_size := List.mem_range.mp hb
    refine solve_recovers S sblen (sblen + rblen) hshape (by omega) hpoints _
      ((List.nodup_range _).filter _ |>.sublist (List.take_sublist _ _)) ?_ ?_
      (fun i => (source.getD i []).getD b 0) _ ?_ index hindex
    · rw [List.length_take, hlen]
      omega
    · intro t ht
      have := List.mem_of_mem_take ht
      exact List.mem_range.mp (List.mem_filter.mp this).1
    · intro t ht
      have hmem := List.mem_filter.mp (List.mem_of_mem_take ht)
      have htp : t ∈ present := by simpa using hmem.2
      rw [hbuf t]
      simp only [htp, if_true, Option.getD_some]
      exact block_symbols_eval S sblen rblen payload_size source hshape hpoints hsource t b
        (List.mem_range.mp hmem.1) hb'
  · rfl

/-- A concrete instance: the block of the example scenario, with 4 source and
2 repair symbols over the rational numbers; source slot 2 is missing, the
other three source symbols and both repair symbols are registered. -/
theorem fec_round_trip_witness :
    ∃ d1 d d2,
      BlockDecoder.begin_block rational_scheme
          { block_open := false, sblen := 0, rblen := 0, payload_size := 0, buffers := [] }
          4 2 2 true = some (StatusOK, d1) ∧
      d1.set_buffers ([0, 1, 3, 4, 5].map (fun t =>
        (t, some ((rational_scheme.block_symbols 4 2 2
          [[1, 2], [3, 4], [5, 60], [7, 8]]).getD t [])))) = some d ∧
      d.repair_buffer rational_scheme 2 =
        some (some (([[1, 2], [3, 4], [5, 60], [7, 8]] : List (List ℚ)).getD 2 [])) ∧
      d.end_block = some d2 :=
  fec_round_trip rational_scheme 4 2 2 [[1, 2], [3, 4], [5, 60], [7, 8]] [0, 1, 3, 4, 5]
    { block_open := false, sblen := 0, rblen := 0, payload_size := 0, buffers := [] } 2
    (fun i j _ _ h => by simpa [rational_scheme] using h)
    (by decide) rfl (by simp) rfl (by decide) (by decide) (by decide) (by decide)

end FEC

end roc
